import Mathlib

/-!
# Gray-Scott reaction-diffusion: embedding of the simulation core

Shallow embedding of `src/parallel.cpp` (clamped addressing, worker bands, `DT`, the
key and mouse handlers of `main`, `initializearr`), `src/nonparallel.cpp` (single loop,
unchecked addressing), `src/CPP/parallel.cpp` (worker bands, unchecked addressing) and
`updateGrid` of `src/CPP/old/main.cpp` (copy-based, grid of rows).

* `WIDTH`, `HEIGHT` (compile-time constants of the sources) are parameters `W H : Int`.
* `double` is a type parameter `α` carrying the operations the code uses; the
  definitions are stated once and instantiated at an ordered field (exact
  arithmetic) and at `F64`, a model of the finite binary64 values with
  round-to-nearest-even.
* `std::vector<Cell>` is `List (Cell α)`; an access outside `[0, size)` is undefined
  behaviour in the source and `none` here, as is the integer division by zero.
* `int` is `Int` (the grid sizes of the sources keep every index far below `2^31`).
* `dist(gen)` of `initializearr` is a sequence `dist : Nat → α` of draws, read in order.
-/

namespace ReactionDiffusion

/-! ## Data model -/

/-- `struct Cell { double a; double b; }`. -/
structure Cell (α : Type) where
  a : α
  b : α
deriving DecidableEq, Repr

/-- The tunables of the sources: `DIFFUSION_RATE_A`, `DIFFUSION_RATE_B` (constants)
and the globals `FEED_RATE`, `KILL_RATE`, `DT`. -/
structure Params (α : Type) where
  DIFFUSION_RATE_A : α
  DIFFUSION_RATE_B : α
  FEED_RATE : α
  KILL_RATE : α
  DT : α

/-- `std::min(a, b)`: returns `b` when `b < a`, else `a`. -/
def stdMin {α : Type} [LT α] [∀ x y : α, Decidable (x < y)] (a b : α) : α :=
  if b < a then b else a

/-- `std::max(a, b)`: returns `b` when `a < b`, else `a`. -/
def stdMax {α : Type} [LT α] [∀ x y : α, Decidable (x < y)] (a b : α) : α :=
  if a < b then b else a

/-- Read `arr[i]`; `none` when `i` is outside `[0, arr.size())`. -/
def readCell {α : Type} (arr : List (Cell α)) (i : Int) : Option (Cell α) :=
  if 0 ≤ i then arr[i.toNat]? else none

/-- The store `arr[i].a = v`; `none` when `i` is outside `[0, arr.size())`. -/
def writeA {α : Type} (arr : List (Cell α)) (i : Int) (v : α) : Option (List (Cell α)) :=
  match readCell arr i with
  | some c => some (arr.set i.toNat { c with a := v })
  | none => none

/-- The store `arr[i].b = v`; `none` when `i` is outside `[0, arr.size())`. -/
def writeB {α : Type} (arr : List (Cell α)) (i : Int) (v : α) : Option (List (Cell α)) :=
  match readCell arr i with
  | some c => some (arr.set i.toNat { c with b := v })
  | none => none

/-- The values of `for (int v = lo; v < hi; ++v)`, in order. -/
def forRange (lo hi : Int) : List Int :=
  (List.range (hi - lo).toNat).map (fun (k : Nat) => lo + (k : Int))

/-! ## `src/parallel.cpp` -/

/-- `get_idx_from_xy` of `src/parallel.cpp`: both coordinates are clamped first. -/
def get_idx_from_xy (W H x y : Int) : Int :=
  let x := stdMax 0 (stdMin (W - 1) x)
  let y := stdMax 0 (stdMin (H - 1) y)
  y * W + x

section Generic

variable {α : Type} [Zero α] [One α] [Neg α] [Add α] [Sub α] [Mul α] [OfScientific α]

/-- `laplaceA` of `src/parallel.cpp`. -/
def laplaceA (W H x y : Int) (arr : List (Cell α)) : Option α := do
  let sum : α := 0
  let sum := sum + (← readCell arr (get_idx_from_xy W H x y)).a * -1
  let sum := sum + (← readCell arr (get_idx_from_xy W H (x - 1) y)).a * 0.2
  let sum := sum + (← readCell arr (get_idx_from_xy W H (x + 1) y)).a * 0.2
  let sum := sum + (← readCell arr (get_idx_from_xy W H x (y + 1))).a * 0.2
  let sum := sum + (← readCell arr (get_idx_from_xy W H x (y - 1))).a * 0.2
  let sum := sum + (← readCell arr (get_idx_from_xy W H (x - 1) (y - 1))).a * 0.05
  let sum := sum + (← readCell arr (get_idx_from_xy W H (x + 1) (y - 1))).a * 0.05
  let sum := sum + (← readCell arr (get_idx_from_xy W H (x + 1) (y + 1))).a * 0.05
  let sum := sum + (← readCell arr (get_idx_from_xy W H (x - 1) (y + 1))).a * 0.05
  return sum

/-- `laplaceB` of `src/parallel.cpp`. -/
def laplaceB (W H x y : Int) (arr : List (Cell α)) : Option α := do
  let sum : α := 0
  let sum := sum + (← readCell arr (get_idx_from_xy W H x y)).b * -1
  let sum := sum + (← readCell arr (get_idx_from_xy W H (x - 1) y)).b * 0.2
  let sum := sum + (← readCell arr (get_idx_from_xy W H (x + 1) y)).b * 0.2
  let sum := sum + (← readCell arr (get_idx_from_xy W H x (y + 1))).b * 0.2
  let sum := sum + (← readCell arr (get_idx_from_xy W H x (y - 1))).b * 0.2
  let sum := sum + (← readCell arr (get_idx_from_xy W H (x - 1) (y - 1))).b * 0.05
  let sum := sum + (← readCell arr (get_idx_from_xy W H (x + 1) (y - 1))).b * 0.05
  let sum := sum + (← readCell arr (get_idx_from_xy W H (x + 1) (y + 1))).b * 0.05
  let sum := sum + (← readCell arr (get_idx_from_xy W H (x - 1) (y + 1))).b * 0.05
  return sum

variable [LT α] [∀ x y : α, Decidable (x < y)]

/-- The body of the inner loop of `updatearr_chunk` (`src/parallel.cpp`), for one
cell `(x, y)`: two reads of `arr`, the two stencils, the two raw stores into
`nextarr` and the two clamping stores. -/
def updateCell (P : Params α) (W H : Int) (arr nextarr : List (Cell α)) (x y : Int) :
    Option (List (Cell α)) := do
  let idx := get_idx_from_xy W H x y
  let a := (← readCell arr idx).a
  let b := (← readCell arr idx).b
  let laplacianA ← laplaceA W H x y arr
  let laplacianB ← laplaceB W H x y arr
  let nextarr ← writeA nextarr idx
    (a + ((P.DIFFUSION_RATE_A * laplacianA) - (a * b * b) + (P.FEED_RATE * (1 - a))) * P.DT)
  let nextarr ← writeB nextarr idx
    (b + ((P.DIFFUSION_RATE_B * laplacianB) + (a * b * b) - ((P.KILL_RATE + P.FEED_RATE) * b)) * P.DT)
  let nextarr ← writeA nextarr idx (stdMax 0 (stdMin 1 (← readCell nextarr idx).a))
  let nextarr ← writeB nextarr idx (stdMax 0 (stdMin 1 (← readCell nextarr idx).b))
  return nextarr

/-- `updatearr_chunk` of `src/parallel.cpp`: rows `start_y ≤ y < end_y`, columns
`1 ≤ x < WIDTH - 1`; returns the written `nextarr`. -/
def updatearr_chunk (P : Params α) (W H : Int) (arr nextarr : List (Cell α))
    (start_y end_y : Int) : Option (List (Cell α)) :=
  (forRange start_y end_y).foldlM
    (fun nextarr y => (forRange 1 (W - 1)).foldlM
      (fun nextarr x => updateCell P W H arr nextarr x y) nextarr)
    nextarr

/-- The row range `(start_y, end_y)` that `updatearr` hands to worker `i`. -/
def band (H num_threads i : Int) : Int × Int :=
  let chunk_height := Int.tdiv H num_threads
  let start_y := i * chunk_height + 1
  let end_y := if i = num_threads - 1 then H - 1 else start_y + chunk_height
  (start_y, end_y)

/-- `updatearr` of `src/parallel.cpp` with the workers run to completion one after
the other in the order `order` (the source launches workers `0 .. num_threads - 1`
asynchronously and joins them all); the result is the pair `(arr, nextarr)` after
`arr.swap(nextarr)`. `HEIGHT / num_threads` has no value when `num_threads = 0`. -/
def updatearrIn (order : List Int) (P : Params α) (W H num_threads : Int)
    (arr nextarr : List (Cell α)) : Option (List (Cell α) × List (Cell α)) :=
  if num_threads = 0 then none
  else do
    let nextarr ← order.foldlM
      (fun nextarr i =>
        updatearr_chunk P W H arr nextarr (band H num_threads i).1 (band H num_threads i).2)
      nextarr
    return (nextarr, arr)

/-- `updatearr` of `src/parallel.cpp`, workers in launch order;
`num_threads` is the value of `std::thread::hardware_concurrency()`. -/
def updatearr (P : Params α) (W H num_threads : Int) (arr nextarr : List (Cell α)) :
    Option (List (Cell α) × List (Cell α)) :=
  updatearrIn (forRange 0 num_threads) P W H num_threads arr nextarr

/-- The guarded double loop of the brush (the two `for` loops of the mouse-moved
handler), without the store that precedes it. -/
def brushLoop (W H stroke : Int) (arr : List (Cell α)) (x y : Int) : Option (List (Cell α)) :=
  (forRange (y - Int.tdiv stroke 2) (y + Int.tdiv stroke 2)).foldlM
    (fun arr i =>
      if i < 0 ∨ i ≥ H then pure arr
      else (forRange (x - Int.tdiv stroke 2) (x + Int.tdiv stroke 2)).foldlM
        (fun arr j =>
          if j < 0 ∨ j ≥ W then pure arr
          else do
            let arr ← writeB arr (i * W + j) 1
            let arr ← writeA arr (i * W + j) 0
            return arr)
        arr)
    arr

/-- The brush of the mouse-moved handler (`main`) at mouse position `(x, y)`:
the unguarded store `arr[y * WIDTH + x].b = 1.0f`, then the guarded double loop.
`stroke` is `WIDTH / 100` in `src/parallel.cpp`, `WIDTH / 50` in
`src/CPP/parallel.cpp` and `10` in `src/nonparallel.cpp`. -/
def brush (W H stroke : Int) (arr : List (Cell α)) (x y : Int) : Option (List (Cell α)) := do
  let arr ← writeB arr (y * W + x) 1
  brushLoop W H stroke arr x y

/-- `initializearr` of `src/parallel.cpp`. The vector is created with `WIDTH * HEIGHT`
zero cells; `dist n` is the value of the `n`-th call of `dist(gen)`, the second
component of the loop state counts the calls made so far. -/
def initializearr (W H : Int) (dist : Nat → α) : Option (List (Cell α)) := do
  let arr : List (Cell α) := List.replicate (W * H).toNat ⟨0, 0⟩
  let st ← (forRange 0 H).foldlM
    (fun (st : List (Cell α) × Nat) y => (forRange 0 W).foldlM
      (fun (st : List (Cell α) × Nat) x => do
        let idx := y * W + x
        let arr ← writeA st.1 idx 1
        let arr ← writeB arr idx 0
        if x > Int.tdiv W 2 - 20 ∧ x < Int.tdiv W 2 + 20 ∧ y > Int.tdiv H 2 - 20 ∧
            y < Int.tdiv H 2 + 20 then do
          let arr ← writeB arr idx 1
          return (arr, st.2)
        else do
          let arr ← writeB arr idx (dist st.2)
          return (arr, st.2 + 1))
      st)
    (arr, 0)
  return st.1

/-- The keys that the `KeyPressed` handler of `src/parallel.cpp` tells apart. -/
inductive Scancode where
  | Up | Down | Left | Right | Num1 | Num2 | Other
deriving DecidableEq, Repr

/-- The `switch` of the `KeyPressed` handler of `src/parallel.cpp`. -/
def keyPressed (key : Scancode) (P : Params α) : Params α :=
  match key with
  | Scancode.Up => { P with KILL_RATE := P.KILL_RATE + 0.001 }
  | Scancode.Down => { P with KILL_RATE := P.KILL_RATE - 0.001 }
  | Scancode.Left => { P with FEED_RATE := P.FEED_RATE - 0.001 }
  | Scancode.Right => { P with FEED_RATE := P.FEED_RATE + 0.001 }
  | Scancode.Num1 => { P with DT := P.DT - 0.1 }
  | Scancode.Num2 => { P with DT := P.DT + 0.1 }
  | Scancode.Other => P

/-- The state that `main` of `src/parallel.cpp` carries from frame to frame: the
globals and the two buffers. -/
structure Sim (α : Type) where
  P : Params α
  arr : List (Cell α)
  nextarr : List (Cell α)

/-- What the frame loop does to the state, as far as the tunables go: a key press
or a call `updatearr(arr, nextarr)`. -/
inductive Action where
  | key (k : Scancode)
  | update
deriving DecidableEq, Repr

/-- One action on the state. -/
def act (W H num_threads : Int) (s : Sim α) (e : Action) : Option (Sim α) :=
  match e with
  | Action.key k => some { s with P := keyPressed k s.P }
  | Action.update => do
    let r ← updatearr s.P W H num_threads s.arr s.nextarr
    return { s with arr := r.1, nextarr := r.2 }

/-- A sequence of actions, in order. -/
def run (W H num_threads : Int) (actions : List Action) (s : Sim α) : Option (Sim α) :=
  actions.foldlM (act W H num_threads) s

/-- The key presses of a sequence of actions, in order. -/
def keysOf (actions : List Action) : List Scancode :=
  actions.filterMap (fun e => match e with
    | Action.key k => some k
    | Action.update => none)

end Generic

/-! ## `src/nonparallel.cpp` -/

namespace Nonparallel

/-- `get_idx_from_xy` of `src/nonparallel.cpp`: no clamping. -/
def get_idx_from_xy (W x y : Int) : Int :=
  y * W + x

section Generic

variable {α : Type} [Zero α] [One α] [Neg α] [Add α] [Sub α] [Mul α] [OfScientific α]

/-- `laplaceA` of `src/nonparallel.cpp`. -/
def laplaceA (W x y : Int) (arr : List (Cell α)) : Option α := do
  let sum : α := 0
  let sum := sum + (← readCell arr (get_idx_from_xy W x y)).a * -1
  let sum := sum + (← readCell arr (get_idx_from_xy W (x - 1) y)).a * 0.2
  let sum := sum + (← readCell arr (get_idx_from_xy W (x + 1) y)).a * 0.2
  let sum := sum + (← readCell arr (get_idx_from_xy W x (y + 1))).a * 0.2
  let sum := sum + (← readCell arr (get_idx_from_xy W x (y - 1))).a * 0.2
  let sum := sum + (← readCell arr (get_idx_from_xy W (x - 1) (y - 1))).a * 0.05
  let sum := sum + (← readCell arr (get_idx_from_xy W (x + 1) (y - 1))).a * 0.05
  let sum := sum + (← readCell arr (get_idx_from_xy W (x + 1) (y + 1))).a * 0.05
  let sum := sum + (← readCell arr (get_idx_from_xy W (x - 1) (y + 1))).a * 0.05
  return sum

/-- `laplaceB` of `src/nonparallel.cpp`. -/
def laplaceB (W x y : Int) (arr : List (Cell α)) : Option α := do
  let sum : α := 0
  let sum := sum + (← readCell arr (get_idx_from_xy W x y)).b * -1
  let sum := sum + (← readCell arr (get_idx_from_xy W (x - 1) y)).b * 0.2
  let sum := sum + (← readCell arr (get_idx_from_xy W (x + 1) y)).b * 0.2
  let sum := sum + (← readCell arr (get_idx_from_xy W x (y + 1))).b * 0.2
  let sum := sum + (← readCell arr (get_idx_from_xy W x (y - 1))).b * 0.2
  let sum := sum + (← readCell arr (get_idx_from_xy W (x - 1) (y - 1))).b * 0.05
  let sum := sum + (← readCell arr (get_idx_from_xy W (x + 1) (y - 1))).b * 0.05
  let sum := sum + (← readCell arr (get_idx_from_xy W (x + 1) (y + 1))).b * 0.05
  let sum := sum + (← readCell arr (get_idx_from_xy W (x - 1) (y + 1))).b * 0.05
  return sum

variable [LT α] [∀ x y : α, Decidable (x < y)]

/-- The loop body of `updatearr` (`src/nonparallel.cpp`) for one cell; this file
has no `DT` factor. -/
def updateCell (P : Params α) (W : Int) (arr nextarr : List (Cell α)) (x y : Int) :
    Option (List (Cell α)) := do
  let idx := get_idx_from_xy W x y
  let a := (← readCell arr idx).a
  let b := (← readCell arr idx).b
  let laplacianA ← laplaceA W x y arr
  let laplacianB ← laplaceB W x y arr
  let nextarr ← writeA nextarr idx
    (a + (P.DIFFUSION_RATE_A * laplacianA) - (a * b * b) + (P.FEED_RATE * (1 - a)))
  let nextarr ← writeB nextarr idx
    (b + (P.DIFFUSION_RATE_B * laplacianB) + (a * b * b) - ((P.KILL_RATE + P.FEED_RATE) * b))
  let nextarr ← writeA nextarr idx (stdMax 0 (stdMin 1 (← readCell nextarr idx).a))
  let nextarr ← writeB nextarr idx (stdMax 0 (stdMin 1 (← readCell nextarr idx).b))
  return nextarr

/-- `updatearr` of `src/nonparallel.cpp`: rows `1 ≤ y < HEIGHT - 1`, columns
`1 ≤ x < WIDTH - 1`, then `arr.swap(nextarr)`; returns `(arr, nextarr)`. -/
def updatearr (P : Params α) (W H : Int) (arr nextarr : List (Cell α)) :
    Option (List (Cell α) × List (Cell α)) := do
  let nextarr ← (forRange 1 (H - 1)).foldlM
    (fun nextarr y => (forRange 1 (W - 1)).foldlM
      (fun nextarr x => updateCell P W arr nextarr x y) nextarr)
    nextarr
  return (nextarr, arr)

end Generic

end Nonparallel

/-! ## `src/CPP/parallel.cpp` -/

namespace CppParallel

/-- `get_idx_from_xy` of `src/CPP/parallel.cpp`: no clamping. -/
def get_idx_from_xy (W x y : Int) : Int :=
  y * W + x

section Generic

variable {α : Type} [Zero α] [One α] [Neg α] [Add α] [Sub α] [Mul α] [OfScientific α]

/-- `laplaceA` of `src/CPP/parallel.cpp`. -/
def laplaceA (W x y : Int) (arr : List (Cell α)) : Option α := do
  let sum : α := 0
  let sum := sum + (← readCell arr (get_idx_from_xy W x y)).a * -1
  let sum := sum + (← readCell arr (get_idx_from_xy W (x - 1) y)).a * 0.2
  let sum := sum + (← readCell arr (get_idx_from_xy W (x + 1) y)).a * 0.2
  let sum := sum + (← readCell arr (get_idx_from_xy W x (y + 1))).a * 0.2
  let sum := sum + (← readCell arr (get_idx_from_xy W x (y - 1))).a * 0.2
  let sum := sum + (← readCell arr (get_idx_from_xy W (x - 1) (y - 1))).a * 0.05
  let sum := sum + (← readCell arr (get_idx_from_xy W (x + 1) (y - 1))).a * 0.05
  let sum := sum + (← readCell arr (get_idx_from_xy W (x + 1) (y + 1))).a * 0.05
  let sum := sum + (← readCell arr (get_idx_from_xy W (x - 1) (y + 1))).a * 0.05
  return sum

/-- `laplaceB` of `src/CPP/parallel.cpp`. -/
def laplaceB (W x y : Int) (arr : List (Cell α)) : Option α := do
  let sum : α := 0
  let sum := sum + (← readCell arr (get_idx_from_xy W x y)).b * -1
  let sum := sum + (← readCell arr (get_idx_from_xy W (x - 1) y)).b * 0.2
  let sum := sum + (← readCell arr (get_idx_from_xy W (x + 1) y)).b * 0.2
  let sum := sum + (← readCell arr (get_idx_from_xy W x (y + 1))).b * 0.2
  let sum := sum + (← readCell arr (get_idx_from_xy W x (y - 1))).b * 0.2
  let sum := sum + (← readCell arr (get_idx_from_xy W (x - 1) (y - 1))).b * 0.05
  let sum := sum + (← readCell arr (get_idx_from_xy W (x + 1) (y - 1))).b * 0.05
  let sum := sum + (← readCell arr (get_idx_from_xy W (x + 1) (y + 1))).b * 0.05
  let sum := sum + (← readCell arr (get_idx_from_xy W (x - 1) (y + 1))).b * 0.05
  return sum

variable [LT α] [∀ x y : α, Decidable (x < y)]

/-- The body of the inner loop of `updatearr_chunk` (`src/CPP/parallel.cpp`) for one
cell; the time step is the local `double dt = 3`. -/
def updateCell (P : Params α) (W : Int) (arr nextarr : List (Cell α)) (x y : Int) :
    Option (List (Cell α)) := do
  let idx := get_idx_from_xy W x y
  let a := (← readCell arr idx).a
  let b := (← readCell arr idx).b
  let laplacianA ← laplaceA W x y arr
  let laplacianB ← laplaceB W x y arr
  let dt : α := 3.0
  let nextarr ← writeA nextarr idx
    (a + ((P.DIFFUSION_RATE_A * laplacianA) - (a * b * b) + (P.FEED_RATE * (1 - a))) * dt)
  let nextarr ← writeB nextarr idx
    (b + ((P.DIFFUSION_RATE_B * laplacianB) + (a * b * b) - ((P.KILL_RATE + P.FEED_RATE) * b)) * dt)
  let nextarr ← writeA nextarr idx (stdMax 0 (stdMin 1 (← readCell nextarr idx).a))
  let nextarr ← writeB nextarr idx (stdMax 0 (stdMin 1 (← readCell nextarr idx).b))
  return nextarr

/-- `updatearr_chunk` of `src/CPP/parallel.cpp`. -/
def updatearr_chunk (P : Params α) (W : Int) (arr nextarr : List (Cell α))
    (start_y end_y : Int) : Option (List (Cell α)) :=
  (forRange start_y end_y).foldlM
    (fun nextarr y => (forRange 1 (W - 1)).foldlM
      (fun nextarr x => updateCell P W arr nextarr x y) nextarr)
    nextarr

/-- `updatearr` of `src/CPP/parallel.cpp`, the workers run one after the other in
launch order; the bands are computed as in `src/parallel.cpp` (`band`). -/
def updatearr (P : Params α) (W H num_threads : Int) (arr nextarr : List (Cell α)) :
    Option (List (Cell α) × List (Cell α)) :=
  if num_threads = 0 then none
  else do
    let nextarr ← (forRange 0 num_threads).foldlM
      (fun nextarr i =>
        updatearr_chunk P W arr nextarr (band H num_threads i).1 (band H num_threads i).2)
      nextarr
    return (nextarr, arr)

end Generic

end CppParallel

/-! ## `src/CPP/old/main.cpp` -/

namespace Old

/-- Read `grid[i][j]` of a `std::vector<std::vector<Cell>>`; `none` when either index
is out of range. -/
def readGrid {α : Type} (grid : List (List (Cell α))) (i j : Int) : Option (Cell α) :=
  if 0 ≤ i then
    match grid[i.toNat]? with
    | some row => readCell row j
    | none => none
  else none

/-- The store `grid[i][j].a = v`. -/
def writeGridA {α : Type} (grid : List (List (Cell α))) (i j : Int) (v : α) :
    Option (List (List (Cell α))) :=
  if 0 ≤ i then
    match grid[i.toNat]? with
    | some row =>
      match writeA row j v with
      | some row2 => some (grid.set i.toNat row2)
      | none => none
    | none => none
  else none

/-- The store `grid[i][j].b = v`. -/
def writeGridB {α : Type} (grid : List (List (Cell α))) (i j : Int) (v : α) :
    Option (List (List (Cell α))) :=
  if 0 ≤ i then
    match grid[i.toNat]? with
    | some row =>
      match writeB row j v with
      | some row2 => some (grid.set i.toNat row2)
      | none => none
    | none => none
  else none

section Generic

variable {α : Type} [Zero α] [One α] [Neg α] [Add α] [Sub α] [Mul α] [OfScientific α]

/-- `laplaceA(int y, int x, grid)` of `src/CPP/old/main.cpp`; the parameter names and
the index order `grid[x][y]` are those of the source. -/
def laplaceA (y x : Int) (grid : List (List (Cell α))) : Option α := do
  let sum : α := 0
  let sum := sum + (← readGrid grid x y).a * -1
  let sum := sum + (← readGrid grid (x - 1) y).a * 0.2
  let sum := sum + (← readGrid grid (x + 1) y).a * 0.2
  let sum := sum + (← readGrid grid x (y + 1)).a * 0.2
  let sum := sum + (← readGrid grid x (y - 1)).a * 0.2
  let sum := sum + (← readGrid grid (x - 1) (y - 1)).a * 0.05
  let sum := sum + (← readGrid grid (x + 1) (y - 1)).a * 0.05
  let sum := sum + (← readGrid grid (x + 1) (y + 1)).a * 0.05
  let sum := sum + (← readGrid grid (x - 1) (y + 1)).a * 0.05
  return sum

/-- `laplaceB(int y, int x, grid)` of `src/CPP/old/main.cpp`. -/
def laplaceB (y x : Int) (grid : List (List (Cell α))) : Option α := do
  let sum : α := 0
  let sum := sum + (← readGrid grid x y).b * -1
  let sum := sum + (← readGrid grid (x - 1) y).b * 0.2
  let sum := sum + (← readGrid grid (x + 1) y).b * 0.2
  let sum := sum + (← readGrid grid x (y + 1)).b * 0.2
  let sum := sum + (← readGrid grid x (y - 1)).b * 0.2
  let sum := sum + (← readGrid grid (x - 1) (y - 1)).b * 0.05
  let sum := sum + (← readGrid grid (x + 1) (y - 1)).b * 0.05
  let sum := sum + (← readGrid grid (x + 1) (y + 1)).b * 0.05
  let sum := sum + (← readGrid grid (x - 1) (y + 1)).b * 0.05
  return sum

variable [LT α] [∀ x y : α, Decidable (x < y)]

/-- The loop body of `updateGrid` (`src/CPP/old/main.cpp`) for one cell: reads from
`grid`, stores into `nextGrid`. -/
def updateCell (P : Params α) (grid nextGrid : List (List (Cell α))) (x y : Int) :
    Option (List (List (Cell α))) := do
  let a := (← readGrid grid y x).a
  let b := (← readGrid grid y x).b
  let laplacianA ← laplaceA x y grid
  let laplacianB ← laplaceB x y grid
  let nextGrid ← writeGridA nextGrid y x
    (a + (P.DIFFUSION_RATE_A * laplacianA) - (a * b * b) + (P.FEED_RATE * (1 - a)))
  let nextGrid ← writeGridB nextGrid y x
    (b + (P.DIFFUSION_RATE_B * laplacianB) + (a * b * b) - ((P.KILL_RATE + P.FEED_RATE) * b))
  let nextGrid ← writeGridA nextGrid y x (stdMax 0 (stdMin 1 (← readGrid nextGrid y x).a))
  let nextGrid ← writeGridB nextGrid y x (stdMax 0 (stdMin 1 (← readGrid nextGrid y x).b))
  return nextGrid

/-- `updateGrid` of `src/CPP/old/main.cpp`: `nextGrid` starts as a copy of `grid`, the
interior cells are stored into it and it is assigned back to `grid`; the result is the
new `grid`. -/
def updateGrid (P : Params α) (W H : Int) (grid : List (List (Cell α))) :
    Option (List (List (Cell α))) :=
  (forRange 1 (H - 1)).foldlM
    (fun nextGrid y => (forRange 1 (W - 1)).foldlM
      (fun nextGrid x => updateCell P grid nextGrid x y) nextGrid)
    grid

end Generic

end Old

/-! ## Finite binary64 arithmetic -/

/-- Number of binary digits of `n`, for `n < 2^4096` (binary search on the exponent). -/
def bitLength (n : Nat) : Nat :=
  if n = 0 then 0
  else [2048, 1024, 512, 256, 128, 64, 32, 16, 8, 4, 2, 1].foldl
    (fun acc s => if 2 ^ (acc + s) ≤ n then acc + s else acc) 0 + 1

/-- Round the rational `n / d ≥ 0` to the nearest binary64 value, ties to even.
The result `r` stands for `r · 2^(-1074)`: below `2^53` every integer `r` is a
(subnormal or lowest-binade) value, above it the low `bitLength - 53` bits are zero. -/
def roundNearestEven (n d : Nat) : Nat :=
  let q := n * 2 ^ 1074 / d
  let u := 2 ^ (bitLength q - 53)
  let lo := q / u
  let twice := 2 * (n * 2 ^ 1074)
  let mid := (2 * lo + 1) * u * d
  if twice < mid then lo * u
  else if mid < twice then (lo + 1) * u
  else if lo % 2 = 0 then lo * u else (lo + 1) * u

/-- A finite binary64 value (`double`): `k` stands for the number `k · 2^(-1074)`.
Infinities, NaN and the sign of zero are not represented; the model is exact for
operations whose result stays below `2^1024` in magnitude. -/
structure F64 where
  k : Int
deriving DecidableEq

namespace F64

/-- The binary64 value nearest to `± n / d`. -/
def ofRatio (neg : Bool) (n d : Nat) : F64 :=
  if neg then ⟨-(roundNearestEven n d : Int)⟩ else ⟨(roundNearestEven n d : Int)⟩

instance : Zero F64 := ⟨⟨0⟩⟩
instance : One F64 := ⟨⟨((2 ^ 1074 : Nat) : Int)⟩⟩
instance : Neg F64 := ⟨fun x => ⟨-x.k⟩⟩
instance : Add F64 :=
  ⟨fun x y => ofRatio (decide (x.k + y.k < 0)) (x.k + y.k).natAbs (2 ^ 1074)⟩
instance : Sub F64 :=
  ⟨fun x y => ofRatio (decide (x.k - y.k < 0)) (x.k - y.k).natAbs (2 ^ 1074)⟩
instance : Mul F64 :=
  ⟨fun x y => ofRatio (decide (x.k * y.k < 0)) (x.k * y.k).natAbs (2 ^ 2148)⟩
instance : OfScientific F64 :=
  ⟨fun m s e => if s then ofRatio false m (10 ^ e) else ofRatio false (m * 10 ^ e) 1⟩
instance : LT F64 := ⟨fun x y => x.k < y.k⟩
instance decLt (x y : F64) : Decidable (x < y) :=
  inferInstanceAs (Decidable (x.k < y.k))

end F64

/-- The cell stored at index `i`, with `⟨0, 0⟩` standing in outside the buffer. -/
def cellAt {α : Type} [Zero α] (arr : List (Cell α)) (i : Int) : Cell α :=
  (readCell arr i).getD ⟨0, 0⟩

section Generic

variable {α : Type} [Zero α] [One α] [Neg α] [Add α] [Sub α] [Mul α] [OfScientific α]

/-- The nine-term sum of `laplaceA` / `laplaceB`, in the order of the source, over a
field `f` given by coordinates. -/
def stencil (f : Int → Int → α) (x y : Int) : α :=
  0 + f x y * -1 + f (x - 1) y * 0.2 + f (x + 1) y * 0.2 + f x (y + 1) * 0.2
    + f x (y - 1) * 0.2 + f (x - 1) (y - 1) * 0.05 + f (x + 1) (y - 1) * 0.05
    + f (x + 1) (y + 1) * 0.05 + f (x - 1) (y + 1) * 0.05

variable [LT α] [∀ x y : α, Decidable (x < y)]

/-- The cell that `updatearr_chunk` of `src/parallel.cpp` computes for `(x, y)` from
the buffer `arr`. -/
def nextCell (P : Params α) (W H : Int) (arr : List (Cell α)) (x y : Int) : Cell α :=
  let a := (cellAt arr (get_idx_from_xy W H x y)).a
  let b := (cellAt arr (get_idx_from_xy W H x y)).b
  let laplacianA := stencil (fun u v => (cellAt arr (get_idx_from_xy W H u v)).a) x y
  let laplacianB := stencil (fun u v => (cellAt arr (get_idx_from_xy W H u v)).b) x y
  ⟨stdMax 0 (stdMin 1
      (a + ((P.DIFFUSION_RATE_A * laplacianA) - (a * b * b) + (P.FEED_RATE * (1 - a))) * P.DT)),
   stdMax 0 (stdMin 1
      (b + ((P.DIFFUSION_RATE_B * laplacianB) + (a * b * b)
        - ((P.KILL_RATE + P.FEED_RATE) * b)) * P.DT))⟩

end Generic

/-- The row of a buffer index. -/
def rowOf (W : Int) (j : Nat) : Int := (j : Int) / W

/-- The column of a buffer index. -/
def colOf (W : Int) (j : Nat) : Int := (j : Int) % W

/-- Outcome of a loop that stores into `nextarr`: it succeeds, keeps the length `n`,
stores `val j` at every index `j` of `Wr` and leaves every other index as in `nx`. -/
def Writes {β : Type} (n : Nat) (val : Nat → β) (Wr : Nat → Prop) (nx : List β)
    (r : Option (List β)) : Prop :=
  ∃ out, r = some out ∧ out.length = n ∧
    (∀ j, Wr j → out[j]? = some (val j)) ∧ (∀ j, ¬ Wr j → out[j]? = nx[j]?)

section Generic

variable {α : Type} [Zero α] [One α] [Neg α] [Add α] [Sub α] [Mul α] [OfScientific α]
variable [LT α] [∀ x y : α, Decidable (x < y)]

/-- The cell that a step of `src/parallel.cpp` stores at buffer index `j`. -/
def valAt (P : Params α) (W H : Int) (arr : List (Cell α)) (j : Nat) : Cell α :=
  nextCell P W H arr (colOf W j) (rowOf W j)

end Generic

/-- The indices stored by the workers listed in `order`: interior columns of the rows
of their bands. -/
def Stored (order : List Int) (W H N : Int) (j : Nat) : Prop :=
  ∃ i ∈ order, ((band H N i).1 ≤ rowOf W j ∧ rowOf W j < (band H N i).2) ∧
    1 ≤ colOf W j ∧ colOf W j < W - 1

/-- The number of rows `end_y - start_y` of the band of worker `i`. -/
def bandHeight (H N i : Int) : Int :=
  (band H N i).2 - (band H N i).1

/-- The indices covered by the guarded loops of the brush with half-width `s` around
`(x, y)`: rows `y - s ≤ i < y + s` and columns `x - s ≤ j < x + s` inside the grid. -/
def InBrush (W H s x y : Int) (k : Nat) : Prop :=
  (y - s ≤ rowOf W k ∧ rowOf W k < y + s ∧ 0 ≤ rowOf W k ∧ rowOf W k < H) ∧
    (x - s ≤ colOf W k ∧ colOf W k < x + s ∧ 0 ≤ colOf W k ∧ colOf W k < W)

namespace Nonparallel

section Generic

variable {α : Type} [Zero α] [One α] [Neg α] [Add α] [Sub α] [Mul α] [OfScientific α]
variable [LT α] [∀ x y : α, Decidable (x < y)]

/-- The cell that `updatearr` of `src/nonparallel.cpp` computes for `(x, y)`. -/
def nextCell (P : Params α) (W : Int) (arr : List (Cell α)) (x y : Int) : Cell α :=
  let a := (cellAt arr (get_idx_from_xy W x y)).a
  let b := (cellAt arr (get_idx_from_xy W x y)).b
  let laplacianA := stencil (fun u v => (cellAt arr (get_idx_from_xy W u v)).a) x y
  let laplacianB := stencil (fun u v => (cellAt arr (get_idx_from_xy W u v)).b) x y
  ⟨stdMax 0 (stdMin 1
      (a + (P.DIFFUSION_RATE_A * laplacianA) - (a * b * b) + (P.FEED_RATE * (1 - a)))),
   stdMax 0 (stdMin 1
      (b + (P.DIFFUSION_RATE_B * laplacianB) + (a * b * b)
        - ((P.KILL_RATE + P.FEED_RATE) * b)))⟩

/-- The cell that a step of `src/nonparallel.cpp` stores at buffer index `j`. -/
def valAt (P : Params α) (W : Int) (arr : List (Cell α)) (j : Nat) : Cell α :=
  nextCell P W arr (colOf W j) (rowOf W j)

end Generic

end Nonparallel

/-- Outcome of a loop over a buffer and a counter: it succeeds, keeps the length `n`,
leaves at every index `j` of `Wr` a cell that meets `Q j` and leaves every other index
as it was. -/
def Fills {β : Type} (n : Nat) (Q : Nat → β → Prop) (Wr : Nat → Prop) (st : List β × Nat)
    (r : Option (List β × Nat)) : Prop :=
  ∃ out g, r = some (out, g) ∧ out.length = n ∧
    (∀ j, Wr j → ∃ c, out[j]? = some c ∧ Q j c) ∧ (∀ j, ¬ Wr j → out[j]? = st.1[j]?)

/-- Whether `(x, y)` lies in the seed window of `initializearr`. -/
def InSeed (W H x y : Int) : Prop :=
  W / 2 - 20 < x ∧ x < W / 2 + 20 ∧ H / 2 - 20 < y ∧ y < H / 2 + 20

namespace Old

/-- A grid of `H` rows of `W` cells each. -/
def Shape {α : Type} (W H : Int) (g : List (List (Cell α))) : Prop :=
  (g.length : Int) = H ∧ ∀ row ∈ g, (row.length : Int) = W

/-- The grid with the cell `c` at row `i`, column `j`. -/
def setGrid {α : Type} (g : List (List (Cell α))) (i j : Int) (c : Cell α) :
    List (List (Cell α)) :=
  g.set i.toNat ((g[i.toNat]?.getD []).set j.toNat c)

/-- The cell at row `i`, column `j`, with `⟨0, 0⟩` standing in outside the grid. -/
def gridAt {α : Type} [Zero α] (g : List (List (Cell α))) (i j : Int) : Cell α :=
  (readGrid g i j).getD ⟨0, 0⟩

end Old

/-! ## The update as the specification words it -/

/-- The clamp of the specification: into `[0, 1]`. -/
def clamp01 {α : Type} [LinearOrderedField α] (v : α) : α :=
  max 0 (min 1 v)

/-- Parameters of the 5x5 scenario: `Da = 1`, `Db = 0.5`, `F = 0.05`, `K = 0.06`, `DT = 1`. -/
def scenarioParams : Params ℚ := ⟨1, 0.5, 0.05, 0.06, 1⟩

/-- A 3x3 buffer: `a = 1` everywhere, `b = 1` at the centre and `0` elsewhere. -/
def grid3 : List (Cell ℚ) :=
  [⟨1, 0⟩, ⟨1, 0⟩, ⟨1, 0⟩, ⟨1, 0⟩, ⟨1, 1⟩, ⟨1, 0⟩, ⟨1, 0⟩, ⟨1, 0⟩, ⟨1, 0⟩]

/-- The buffer `grid3` after the brush at the corner `(0, 0)` with `stroke = 2`. -/
def brushed3 : List (Cell ℚ) :=
  [⟨0, 1⟩, ⟨1, 0⟩, ⟨1, 0⟩, ⟨1, 0⟩, ⟨1, 1⟩, ⟨1, 0⟩, ⟨1, 0⟩, ⟨1, 0⟩, ⟨1, 0⟩]

/-- A 3x3 binary64 buffer with `a = 1` and `b = 1` in every cell. -/
def uniform3 : List (Cell F64) :=
  List.replicate 9 ⟨1, 1⟩

/-- A 3x3 rational buffer with `b = 1/3` in every cell and `a = 0` at the centre, `1`
elsewhere. -/
def dented3 : List (Cell ℚ) :=
  [⟨1, 1 / 3⟩, ⟨1, 1 / 3⟩, ⟨1, 1 / 3⟩, ⟨1, 1 / 3⟩, ⟨0, 1 / 3⟩, ⟨1, 1 / 3⟩, ⟨1, 1 / 3⟩,
    ⟨1, 1 / 3⟩, ⟨1, 1 / 3⟩]

/-- An `800 x 800` buffer with `a = 1`, `b = 0` in every cell. -/
def grid800 : List (Cell ℚ) :=
  List.replicate 640000 ⟨1, 0⟩

/-- The tunables as `src/parallel.cpp` ships them, in binary64. -/
def shippedParams64 : Params F64 := ⟨0.2097, 0.1050, 0.0460, 0.0594, 4.0⟩

/-- A 3x3 binary64 buffer with `a = 1`, `b = 0` in every cell. -/
def steady3 : List (Cell F64) :=
  List.replicate 9 ⟨1, 0⟩

/-- Parameters of the 5x5 scenario in binary64. -/
def scenarioParams64 : Params F64 := ⟨1, 0.5, 0.05, 0.06, 1⟩

/-- The 5x5 binary64 buffer of the scenario. -/
def scenario5 : List (Cell F64) :=
  [⟨1, 0⟩, ⟨1, 0⟩, ⟨1, 0⟩, ⟨1, 0⟩, ⟨1, 0⟩,
   ⟨1, 0⟩, ⟨1, 0⟩, ⟨1, 0⟩, ⟨1, 0⟩, ⟨1, 0⟩,
   ⟨1, 0⟩, ⟨1, 0⟩, ⟨1, 1⟩, ⟨1, 0⟩, ⟨1, 0⟩,
   ⟨1, 0⟩, ⟨1, 0⟩, ⟨1, 0⟩, ⟨1, 0⟩, ⟨1, 0⟩,
   ⟨1, 0⟩, ⟨1, 0⟩, ⟨1, 0⟩, ⟨1, 0⟩, ⟨1, 0⟩]

/-- The binary64 value `1 - 2^(-53)`, the largest below `1`. -/
def belowOne : F64 := ⟨((2 ^ 1074 - 2 ^ 1021 : Nat) : Int)⟩

/-- A 3x3 rational buffer with `a = 1`, `b = 0` in every cell. -/
def steadyQ3 : List (Cell ℚ) :=
  List.replicate 9 ⟨1, 0⟩

/-- The buffer `grid3` as a grid of three rows, as `src/CPP/old/main.cpp` stores it. -/
def rows3 : List (List (Cell ℚ)) :=
  [[⟨1, 0⟩, ⟨1, 0⟩, ⟨1, 0⟩], [⟨1, 0⟩, ⟨1, 1⟩, ⟨1, 0⟩], [⟨1, 0⟩, ⟨1, 0⟩, ⟨1, 0⟩]]

/-- A sequence of draws from `[0, 1]`: `1, 1/2, 1/3, ...`. -/
def harmonicDraws (n : Nat) : ℚ :=
  1 / ((n : ℚ) + 1)

/-- A state of the frame loop on the 3x3 buffer `grid3`. -/
def sim3 : Sim ℚ := ⟨scenarioParams, grid3, grid3⟩

/-- A binary64 state of the frame loop with `KILL_RATE = 1`. -/
def simKillOne : Sim F64 := ⟨⟨1, 0.5, 0.05, 1, 1⟩, uniform3, uniform3⟩

/-! ## Basic facts -/

theorem mem_forRange {lo hi v : Int} : v ∈ forRange lo hi ↔ lo ≤ v ∧ v < hi := by
  unfold forRange
  simp only [List.mem_map, List.mem_range]
  constructor
  · rintro ⟨k, hk, rfl⟩
    omega
  · rintro ⟨h1, h2⟩
    exact ⟨(v - lo).toNat, by omega, by omega⟩

theorem readCell_of_lt {α : Type} {arr : List (Cell α)} {i : Int} (h0 : 0 ≤ i)
    (h1 : i < arr.length) : ∃ c, readCell arr i = some c ∧ arr[i.toNat]? = some c := by
  have h : i.toNat < arr.length := by omega
  refine ⟨arr[i.toNat], ?_, ?_⟩
  · simp [readCell, h0, List.getElem?_eq_getElem h]
  · simp [List.getElem?_eq_getElem h]

theorem readCell_eq_none {α : Type} {arr : List (Cell α)} {i : Int}
    (h : i < 0 ∨ (arr.length : Int) ≤ i) : readCell arr i = none := by
  unfold readCell
  rcases h with h | h
  · simp [show ¬ (0 ≤ i) by omega]
  · have : arr.length ≤ i.toNat := by omega
    simp [show 0 ≤ i by omega, List.getElem?_eq_none this]

theorem readCell_cellAt {α : Type} [Zero α] {arr : List (Cell α)} {i : Int} (h0 : 0 ≤ i)
    (h1 : i < arr.length) : readCell arr i = some (cellAt arr i) := by
  obtain ⟨c, hc, -⟩ := readCell_of_lt h0 h1
  simp [cellAt, hc]

theorem writeA_eq {α : Type} [Zero α] {arr : List (Cell α)} {i : Int} (h0 : 0 ≤ i) (h1 : i < arr.length) (v : α) :
    writeA arr i v = some (arr.set i.toNat ⟨v, (cellAt arr i).b⟩) := by
  simp only [writeA, readCell_cellAt h0 h1]

theorem writeB_eq {α : Type} [Zero α] {arr : List (Cell α)} {i : Int} (h0 : 0 ≤ i) (h1 : i < arr.length) (v : α) :
    writeB arr i v = some (arr.set i.toNat ⟨(cellAt arr i).a, v⟩) := by
  simp only [writeB, readCell_cellAt h0 h1]

theorem readCell_set_self {α : Type} {arr : List (Cell α)} {i : Int} (h0 : 0 ≤ i)
    (h1 : i < arr.length) (c : Cell α) : readCell (arr.set i.toNat c) i = some c := by
  have h : i.toNat < arr.length := by omega
  simp [readCell, h0, h]

theorem writeA_set_self {α : Type} {arr : List (Cell α)} {i : Int} (h0 : 0 ≤ i)
    (h1 : i < arr.length) (c : Cell α) (v : α) :
    writeA (arr.set i.toNat c) i v = some (arr.set i.toNat ⟨v, c.b⟩) := by
  simp only [writeA, readCell_set_self h0 h1, List.set_set]

theorem writeB_set_self {α : Type} {arr : List (Cell α)} {i : Int} (h0 : 0 ≤ i)
    (h1 : i < arr.length) (c : Cell α) (v : α) :
    writeB (arr.set i.toNat c) i v = some (arr.set i.toNat ⟨c.a, v⟩) := by
  simp only [writeB, readCell_set_self h0 h1, List.set_set]

/-- Folding steps that each meet `Writes` meets `Writes` for the union of the
written index sets. -/
theorem Writes.foldlM {β κ : Type} {n : Nat} {val : Nat → β} (Wr : κ → Nat → Prop)
    (f : List β → κ → Option (List β)) (l : List κ)
    (hf : ∀ k ∈ l, ∀ nx : List β, nx.length = n → Writes n val (Wr k) nx (f nx k)) :
    ∀ nx : List β, nx.length = n →
      Writes n val (fun j => ∃ k ∈ l, Wr k j) nx (l.foldlM f nx) := by
  induction l with
  | nil =>
    intro nx hn
    exact ⟨nx, rfl, hn, by simp, by simp⟩
  | cons k l ih =>
    intro nx hn
    obtain ⟨mid, hmid, hlen, hw, hk⟩ := hf k (List.mem_cons_self k l) nx hn
    obtain ⟨out, hout, hlen2, hw2, hk2⟩ :=
      ih (fun k2 h2 => hf k2 (List.mem_cons_of_mem k h2)) mid hlen
    refine ⟨out, ?_, hlen2, ?_, ?_⟩
    · simp [List.foldlM_cons, hmid, hout]
    · intro j hj
      by_cases hl : ∃ k2 ∈ l, Wr k2 j
      · exact hw2 j hl
      · rw [hk2 j hl]
        obtain ⟨k2, hk2mem, hk2w⟩ := hj
        rcases List.mem_cons.mp hk2mem with rfl | h
        · exact hw j hk2w
        · exact absurd ⟨k2, h, hk2w⟩ hl
    · intro j hj
      have h1 : ¬ ∃ k2 ∈ l, Wr k2 j := fun ⟨k2, h2, h3⟩ => hj ⟨k2, List.mem_cons_of_mem k h2, h3⟩
      have h2 : ¬ Wr k j := fun h => hj ⟨k, List.mem_cons_self k l, h⟩
      rw [hk2 j h1, hk j h2]

theorem Writes.mono {β : Type} {n : Nat} {val : Nat → β} {Wr Wr2 : Nat → Prop} {nx : List β}
    {r : Option (List β)} (h : Writes n val Wr nx r) (hiff : ∀ j, Wr j ↔ Wr2 j) :
    Writes n val Wr2 nx r := by
  obtain ⟨out, h1, h2, h3, h4⟩ := h
  exact ⟨out, h1, h2, fun j hj => h3 j ((hiff j).2 hj), fun j hj => h4 j (fun h => hj ((hiff j).1 h))⟩

/-! ## Clamped addressing -/

theorem get_idx_from_xy_clamp (W H x y : Int) :
    get_idx_from_xy W H x y = max 0 (min (H - 1) y) * W + max 0 (min (W - 1) x) := by
  have h : ∀ m v : Int, stdMax 0 (stdMin m v) = max 0 (min m v) := by
    intro m v
    simp only [stdMax, stdMin, max_def, min_def]
    split_ifs <;> omega
  simp only [get_idx_from_xy, h]

theorem get_idx_from_xy_bounds {W H : Int} (hW : 0 < W) (hH : 0 < H) (x y : Int) :
    0 ≤ get_idx_from_xy W H x y ∧ get_idx_from_xy W H x y < W * H := by
  rw [get_idx_from_xy_clamp]
  have hx0 : 0 ≤ max 0 (min (W - 1) x) := le_max_left _ _
  have hx1 : max 0 (min (W - 1) x) ≤ W - 1 := by
    simp only [max_def, min_def]; split_ifs <;> omega
  have hy0 : 0 ≤ max 0 (min (H - 1) y) := le_max_left _ _
  have hy1 : max 0 (min (H - 1) y) ≤ H - 1 := by
    simp only [max_def, min_def]; split_ifs <;> omega
  generalize max 0 (min (W - 1) x) = cx at hx0 hx1
  generalize max 0 (min (H - 1) y) = cy at hy0 hy1
  constructor
  · have := mul_nonneg hy0 hW.le
    omega
  · have h1 : cy * W ≤ (H - 1) * W := mul_le_mul_of_nonneg_right hy1 hW.le
    have h2 : (H - 1) * W = W * H - W := by ring
    omega

theorem get_idx_from_xy_inside {W H x y : Int} (hx0 : 0 ≤ x) (hx1 : x < W) (hy0 : 0 ≤ y)
    (hy1 : y < H) : get_idx_from_xy W H x y = y * W + x := by
  rw [get_idx_from_xy_clamp]
  have h1 : max 0 (min (W - 1) x) = x := by
    simp only [max_def, min_def]; split_ifs <;> omega
  have h2 : max 0 (min (H - 1) y) = y := by
    simp only [max_def, min_def]; split_ifs <;> omega
  rw [h1, h2]

theorem readCell_get_idx {α : Type} [Zero α] {W H : Int} (hW : 0 < W) (hH : 0 < H)
    {arr : List (Cell α)} (hlen : (arr.length : Int) = W * H) (x y : Int) :
    readCell arr (get_idx_from_xy W H x y) = some (cellAt arr (get_idx_from_xy W H x y)) := by
  have hb := get_idx_from_xy_bounds hW hH x y
  exact readCell_cellAt hb.1 (by omega)

section Generic

set_option linter.unusedSectionVars false

variable {α : Type} [Zero α] [One α] [Neg α] [Add α] [Sub α] [Mul α] [OfScientific α]

theorem laplaceA_eq {W H : Int} (hW : 0 < W) (hH : 0 < H) {arr : List (Cell α)}
    (hlen : (arr.length : Int) = W * H) (x y : Int) :
    laplaceA W H x y arr
      = some (stencil (fun u v => (cellAt arr (get_idx_from_xy W H u v)).a) x y) := by
  simp only [laplaceA, readCell_get_idx hW hH hlen, stencil, bind, Option.bind, pure]

theorem laplaceB_eq {W H : Int} (hW : 0 < W) (hH : 0 < H) {arr : List (Cell α)}
    (hlen : (arr.length : Int) = W * H) (x y : Int) :
    laplaceB W H x y arr
      = some (stencil (fun u v => (cellAt arr (get_idx_from_xy W H u v)).b) x y) := by
  simp only [laplaceB, readCell_get_idx hW hH hlen, stencil, bind, Option.bind, pure]

variable [LT α] [∀ x y : α, Decidable (x < y)]

/-- One loop body of `updatearr_chunk` stores `nextCell` at the index of `(x, y)`. -/
theorem updateCell_eq (P : Params α) {W H : Int} (hW : 0 < W) (hH : 0 < H)
    {arr nextarr : List (Cell α)} (hlen : (arr.length : Int) = W * H)
    (hlen2 : (nextarr.length : Int) = W * H) (x y : Int) :
    updateCell P W H arr nextarr x y
      = some (nextarr.set (get_idx_from_xy W H x y).toNat (nextCell P W H arr x y)) := by
  have hb := get_idx_from_xy_bounds hW hH x y
  have h0 := hb.1
  have h1 : get_idx_from_xy W H x y < nextarr.length := by omega
  simp only [updateCell, readCell_get_idx hW hH hlen, laplaceA_eq hW hH hlen,
    laplaceB_eq hW hH hlen, bind, Option.bind, pure, writeA_eq h0 h1, writeB_set_self h0 h1,
    writeA_set_self h0 h1, readCell_set_self h0 h1, nextCell]

end Generic

/-! ## What one chunk and one step store -/

theorem rowOf_colOf_iff {W : Int} {x y : Int} (hx0 : 0 ≤ x) (hx1 : x < W) (j : Nat) :
    (rowOf W j = y ∧ colOf W j = x) ↔ (j : Int) = y * W + x := by
  unfold rowOf colOf
  constructor
  · rintro ⟨h1, h2⟩
    have := Int.ediv_add_emod (j : Int) W
    rw [h1, h2] at this
    rw [← this]; ring
  · intro h
    have hW : 0 < W := by omega
    rw [h]
    constructor
    · rw [Int.add_comm, Int.add_mul_ediv_right _ _ hW.ne', Int.ediv_eq_zero_of_lt hx0 hx1]
      simp
    · rw [Int.add_comm, Int.add_mul_emod_self, Int.emod_eq_of_lt hx0 hx1]

/-- The two nested `for` loops over rows `start_y ≤ y < end_y` and columns
`1 ≤ x < W - 1`: if the body stores `val` at the index of `(x, y)` only, the loops
store `val` at exactly the indices of these rows and columns. -/
theorem rowLoops_writes {β : Type} {n : Nat} {val : Nat → β} {W : Int}
    (upd : List β → Int → Int → Option (List β)) {start_y end_y : Int}
    (hupd : ∀ x y, 1 ≤ x → x < W - 1 → start_y ≤ y → y < end_y → ∀ nx : List β,
      nx.length = n → Writes n val (fun j => rowOf W j = y ∧ colOf W j = x) nx (upd nx x y))
    (nx : List β) (hnx : nx.length = n) :
    Writes n val
      (fun j => (start_y ≤ rowOf W j ∧ rowOf W j < end_y) ∧ 1 ≤ colOf W j ∧ colOf W j < W - 1)
      nx ((forRange start_y end_y).foldlM
        (fun nx y => (forRange 1 (W - 1)).foldlM (fun nx x => upd nx x y) nx) nx) := by
  refine (Writes.foldlM
    (fun (y : Int) (j : Nat) => rowOf W j = y ∧ 1 ≤ colOf W j ∧ colOf W j < W - 1)
    _ _ ?_ nx hnx).mono ?_
  · intro y hy nx2 hnx2
    rw [mem_forRange] at hy
    refine (Writes.foldlM (fun (x : Int) (j : Nat) => rowOf W j = y ∧ colOf W j = x)
      _ _ ?_ nx2 hnx2).mono ?_
    · intro x hx nx3 hnx3
      rw [mem_forRange] at hx
      exact hupd x y hx.1 hx.2 hy.1 hy.2 nx3 hnx3
    · intro j
      constructor
      · rintro ⟨x, hx, h1, h2⟩
        rw [mem_forRange] at hx
        exact ⟨h1, by omega, by omega⟩
      · rintro ⟨h1, h2, h3⟩
        exact ⟨colOf W j, mem_forRange.2 ⟨h2, h3⟩, h1, rfl⟩
  · intro j
    constructor
    · rintro ⟨y, hy, h1, h2⟩
      rw [mem_forRange] at hy
      exact ⟨by omega, h2⟩
    · rintro ⟨h1, h2⟩
      exact ⟨rowOf W j, mem_forRange.2 h1, rfl, h2⟩

section Generic

set_option linter.unusedSectionVars false

variable {α : Type} [Zero α] [One α] [Neg α] [Add α] [Sub α] [Mul α] [OfScientific α]
variable [LT α] [∀ x y : α, Decidable (x < y)]

theorem updateCell_writes (P : Params α) {W H : Int} {n : Nat} (hn : (n : Int) = W * H)
    {arr : List (Cell α)} (hlen : arr.length = n) {x y : Int} (hx0 : 0 ≤ x) (hx1 : x < W)
    (hy0 : 0 ≤ y) (hy1 : y < H) (nx : List (Cell α)) (hnx : nx.length = n) :
    Writes n (valAt P W H arr) (fun j => rowOf W j = y ∧ colOf W j = x) nx
      (updateCell P W H arr nx x y) := by
  have hW : 0 < W := by omega
  have hH : 0 < H := by omega
  have hb := get_idx_from_xy_bounds hW hH x y
  have hidx := get_idx_from_xy_inside hx0 hx1 hy0 hy1
  refine ⟨_, updateCell_eq P hW hH (by omega) (by omega) x y, by simp [hnx], ?_, ?_⟩
  · intro j hj
    have hj2 := (rowOf_colOf_iff hx0 hx1 j).1 hj
    have hjeq : (get_idx_from_xy W H x y).toNat = j := by omega
    rw [hjeq, List.getElem?_set_self (by omega)]
    simp only [valAt, hj.1, hj.2]
  · intro j hj
    have hne : (get_idx_from_xy W H x y).toNat ≠ j := by
      intro h
      apply hj
      apply (rowOf_colOf_iff hx0 hx1 j).2
      omega
    rw [List.getElem?_set_ne hne]

/-- Rows `start_y ≤ y < end_y` inside the grid: `updatearr_chunk` stores `valAt` at
every column `1 .. W-2` of these rows and nothing else. -/
theorem updatearr_chunk_writes (P : Params α) {W H : Int} {n : Nat} (hn : (n : Int) = W * H)
    {arr : List (Cell α)} (hlen : arr.length = n) {start_y end_y : Int} (hs : 0 ≤ start_y)
    (he : end_y ≤ H) (nx : List (Cell α)) (hnx : nx.length = n) :
    Writes n (valAt P W H arr)
      (fun j => (start_y ≤ rowOf W j ∧ rowOf W j < end_y) ∧ 1 ≤ colOf W j ∧ colOf W j < W - 1)
      nx (updatearr_chunk P W H arr nx start_y end_y) :=
  rowLoops_writes (fun nx x y => updateCell P W H arr nx x y)
    (fun x y hx0 hx1 hy0 hy1 nx2 hnx2 =>
      updateCell_writes P hn hlen (by omega) (by omega) (by omega) (by omega) nx2 hnx2)
    nx hnx

end Generic

/-! ## The row bands of `updatearr` -/

theorem band_fst {H N : Int} (hH : 0 ≤ H) (hN : 1 ≤ N) (i : Int) :
    (band H N i).1 = i * (H / N) + 1 := by
  simp only [band, Int.tdiv_eq_ediv hH (by omega : (0 : Int) ≤ N)]

theorem band_snd_last {H N : Int} : (band H N (N - 1)).2 = H - 1 := by
  simp only [band, if_true]

theorem band_snd {H N : Int} (hH : 0 ≤ H) (hN : 1 ≤ N) {i : Int} (hi : i ≠ N - 1) :
    (band H N i).2 = i * (H / N) + 1 + H / N := by
  simp only [band, Int.tdiv_eq_ediv hH (by omega : (0 : Int) ≤ N), if_neg hi]

/-- Every band lies in rows `1 .. H-1` of the grid. -/
theorem band_in_grid {H N : Int} (hH : 0 < H) (hN : 1 ≤ N) {i : Int} (hi0 : 0 ≤ i)
    (hi1 : i < N) : 1 ≤ (band H N i).1 ∧ (band H N i).2 ≤ H := by
  have hc0 : 0 ≤ H / N := Int.ediv_nonneg hH.le (by omega)
  have hcN : H / N * N ≤ H := Int.ediv_mul_le H (by omega)
  have hic : 0 ≤ i * (H / N) := mul_nonneg hi0 hc0
  rw [band_fst hH.le hN]
  refine ⟨by omega, ?_⟩
  by_cases hlast : i = N - 1
  · subst hlast
    rw [band_snd_last]; omega
  · rw [band_snd hH.le hN hlast]
    have h1 : (i + 1) * (H / N) ≤ (N - 1) * (H / N) :=
      mul_le_mul_of_nonneg_right (by omega) hc0
    have h2 : (i + 1) * (H / N) = i * (H / N) + H / N := by ring
    have h3 : (N - 1) * (H / N) = H / N * N - H / N := by ring
    by_cases hc : H / N = 0
    · rw [hc] at h1 h2 h3 ⊢; omega
    · omega

/-- Every interior row belongs to the band of some worker. -/
theorem band_cover {H N : Int} (hH : 0 < H) (hN : 1 ≤ N) {y : Int} (hy0 : 1 ≤ y)
    (hy1 : y ≤ H - 2) :
    ∃ i, (0 ≤ i ∧ i < N) ∧ (band H N i).1 ≤ y ∧ y < (band H N i).2 := by
  have hc0 : 0 ≤ H / N := Int.ediv_nonneg hH.le (by omega)
  by_cases hlast : (N - 1) * (H / N) + 1 ≤ y
  · refine ⟨N - 1, ⟨by omega, by omega⟩, ?_, ?_⟩
    · rw [band_fst hH.le hN]; exact hlast
    · rw [band_snd_last]; omega
  · have hcpos : 0 < H / N := by
      rcases hc0.lt_or_eq with h | h
      · exact h
      · rw [← h] at hlast; omega
    have h1 : (y - 1) / (H / N) * (H / N) ≤ y - 1 := Int.ediv_mul_le _ hcpos.ne'
    have h2 : y - 1 < ((y - 1) / (H / N) + 1) * (H / N) :=
      Int.lt_ediv_add_one_mul_self _ hcpos
    have h3 : 0 ≤ (y - 1) / (H / N) := Int.ediv_nonneg (by omega) hc0
    have h4 : (y - 1) / (H / N) < N - 1 := by
      by_contra hge
      have : (N - 1) * (H / N) ≤ (y - 1) / (H / N) * (H / N) :=
        mul_le_mul_of_nonneg_right (by omega) hc0
      omega
    have h5 : ((y - 1) / (H / N) + 1) * (H / N)
        = (y - 1) / (H / N) * (H / N) + H / N := by ring
    refine ⟨(y - 1) / (H / N), ⟨h3, by omega⟩, ?_, ?_⟩
    · rw [band_fst hH.le hN]; omega
    · rw [band_snd hH.le hN (by omega)]; omega

/-- Unless the worker count equals `H` (and exceeds one), every row of every band is an
interior row. -/
theorem band_interior {H N : Int} (hH : 0 < H) (hN : 1 ≤ N) (hne : N ≠ H ∨ N = 1) {i : Int}
    (hi0 : 0 ≤ i) (hi1 : i < N) {y : Int} (hy0 : (band H N i).1 ≤ y)
    (hy1 : y < (band H N i).2) : 1 ≤ y ∧ y ≤ H - 2 := by
  have hc0 : 0 ≤ H / N := Int.ediv_nonneg hH.le (by omega)
  have hcN : H / N * N ≤ H := Int.ediv_mul_le H (by omega)
  have hic : 0 ≤ i * (H / N) := mul_nonneg hi0 hc0
  rw [band_fst hH.le hN] at hy0
  refine ⟨by omega, ?_⟩
  by_cases hlast : i = N - 1
  · subst hlast
    rw [band_snd_last] at hy1; omega
  · rw [band_snd hH.le hN hlast] at hy1
    have h1 : (i + 1) * (H / N) ≤ (N - 1) * (H / N) :=
      mul_le_mul_of_nonneg_right (by omega) hc0
    have h2 : (i + 1) * (H / N) = i * (H / N) + H / N := by ring
    have h3 : (N - 1) * (H / N) = H / N * N - H / N := by ring
    by_cases hc : H / N = 1
    · rw [hc] at h1 h2 h3 hcN hy0 hy1; omega
    · omega

section Generic

set_option linter.unusedSectionVars false

variable {α : Type} [Zero α] [One α] [Neg α] [Add α] [Sub α] [Mul α] [OfScientific α]
variable [LT α] [∀ x y : α, Decidable (x < y)]

/-- One step of `src/parallel.cpp` with at least one worker and buffers of `W * H`
cells succeeds; the new current buffer holds `valAt` at every stored index and the
cell of the old `nextarr` everywhere else, and the new `nextarr` is the old `arr`. -/
theorem updatearrIn_spec (P : Params α) {W H N : Int} (hH : 0 < H)
    (hN : 1 ≤ N) {order : List Int} (horder : ∀ i ∈ order, 0 ≤ i ∧ i < N)
    {arr nextarr : List (Cell α)} (hlen : (arr.length : Int) = W * H)
    (hlen2 : (nextarr.length : Int) = W * H) :
    ∃ cur, updatearrIn order P W H N arr nextarr = some (cur, arr) ∧
      cur.length = nextarr.length ∧
      (∀ j, Stored order W H N j → cur[j]? = some (valAt P W H arr j)) ∧
      (∀ j, ¬ Stored order W H N j → cur[j]? = nextarr[j]?) := by
  have hn : ((arr.length : Nat) : Int) = W * H := hlen
  have hnx : nextarr.length = arr.length := by omega
  obtain ⟨cur, h1, h2, h3, h4⟩ := Writes.foldlM
    (fun (i : Int) (j : Nat) => ((band H N i).1 ≤ rowOf W j ∧ rowOf W j < (band H N i).2) ∧
      1 ≤ colOf W j ∧ colOf W j < W - 1)
    (fun nx i => updatearr_chunk P W H arr nx (band H N i).1 (band H N i).2) order
    (fun i hi nx hnx2 => updatearr_chunk_writes P hn rfl
      (by have := (band_in_grid hH hN (horder i hi).1 (horder i hi).2).1; omega)
      (band_in_grid hH hN (horder i hi).1 (horder i hi).2).2 nx hnx2)
    nextarr hnx
  refine ⟨cur, ?_, by omega, h3, h4⟩
  simp only [updatearrIn, if_neg (by omega : ¬ N = 0), h1, bind, Option.bind, pure]

end Generic

/-! ## `src/nonparallel.cpp`: what one step stores -/

namespace Nonparallel

theorem unchecked_idx_bounds {W H x y : Int} (hx0 : 0 ≤ x) (hx1 : x < W) (hy0 : 0 ≤ y)
    (hy1 : y < H) : 0 ≤ get_idx_from_xy W x y ∧ get_idx_from_xy W x y < W * H := by
  have h := ReactionDiffusion.get_idx_from_xy_bounds (by omega : 0 < W) (by omega : 0 < H) x y
  rw [get_idx_from_xy_inside hx0 hx1 hy0 hy1] at h
  exact h

theorem readCell_unchecked_idx {α : Type} [Zero α] {W H : Int} {arr : List (Cell α)}
    (hlen : (arr.length : Int) = W * H) {x y : Int} (hx0 : 0 ≤ x) (hx1 : x < W) (hy0 : 0 ≤ y)
    (hy1 : y < H) :
    readCell arr (get_idx_from_xy W x y) = some (cellAt arr (get_idx_from_xy W x y)) := by
  have hb := unchecked_idx_bounds hx0 hx1 hy0 hy1
  exact readCell_cellAt hb.1 (by omega)

section Generic

set_option linter.unusedSectionVars false

variable {α : Type} [Zero α] [One α] [Neg α] [Add α] [Sub α] [Mul α] [OfScientific α]

theorem laplaceA_unchecked_eq {W H : Int} {arr : List (Cell α)} (hlen : (arr.length : Int) = W * H)
    {x y : Int} (hx0 : 1 ≤ x) (hx1 : x ≤ W - 2) (hy0 : 1 ≤ y) (hy1 : y ≤ H - 2) :
    laplaceA W x y arr
      = some (stencil (fun u v => (cellAt arr (get_idx_from_xy W u v)).a) x y) := by
  have r : ∀ u v : Int, x - 1 ≤ u → u ≤ x + 1 → y - 1 ≤ v → v ≤ y + 1 →
      readCell arr (get_idx_from_xy W u v) = some (cellAt arr (get_idx_from_xy W u v)) :=
    fun u v h1 h2 h3 h4 =>
      readCell_unchecked_idx hlen (by omega) (by omega) (by omega) (by omega)
  simp only [laplaceA, stencil, bind, Option.bind, pure,
    r x y (by omega) (by omega) (by omega) (by omega),
    r (x - 1) y (by omega) (by omega) (by omega) (by omega),
    r (x + 1) y (by omega) (by omega) (by omega) (by omega),
    r x (y + 1) (by omega) (by omega) (by omega) (by omega),
    r x (y - 1) (by omega) (by omega) (by omega) (by omega),
    r (x - 1) (y - 1) (by omega) (by omega) (by omega) (by omega),
    r (x + 1) (y - 1) (by omega) (by omega) (by omega) (by omega),
    r (x + 1) (y + 1) (by omega) (by omega) (by omega) (by omega),
    r (x - 1) (y + 1) (by omega) (by omega) (by omega) (by omega)]

theorem laplaceB_unchecked_eq {W H : Int} {arr : List (Cell α)} (hlen : (arr.length : Int) = W * H)
    {x y : Int} (hx0 : 1 ≤ x) (hx1 : x ≤ W - 2) (hy0 : 1 ≤ y) (hy1 : y ≤ H - 2) :
    laplaceB W x y arr
      = some (stencil (fun u v => (cellAt arr (get_idx_from_xy W u v)).b) x y) := by
  have r : ∀ u v : Int, x - 1 ≤ u → u ≤ x + 1 → y - 1 ≤ v → v ≤ y + 1 →
      readCell arr (get_idx_from_xy W u v) = some (cellAt arr (get_idx_from_xy W u v)) :=
    fun u v h1 h2 h3 h4 =>
      readCell_unchecked_idx hlen (by omega) (by omega) (by omega) (by omega)
  simp only [laplaceB, stencil, bind, Option.bind, pure,
    r x y (by omega) (by omega) (by omega) (by omega),
    r (x - 1) y (by omega) (by omega) (by omega) (by omega),
    r (x + 1) y (by omega) (by omega) (by omega) (by omega),
    r x (y + 1) (by omega) (by omega) (by omega) (by omega),
    r x (y - 1) (by omega) (by omega) (by omega) (by omega),
    r (x - 1) (y - 1) (by omega) (by omega) (by omega) (by omega),
    r (x + 1) (y - 1) (by omega) (by omega) (by omega) (by omega),
    r (x + 1) (y + 1) (by omega) (by omega) (by omega) (by omega),
    r (x - 1) (y + 1) (by omega) (by omega) (by omega) (by omega)]

variable [LT α] [∀ x y : α, Decidable (x < y)]

theorem updateCell_unchecked_eq (P : Params α) {W H : Int} {arr nextarr : List (Cell α)}
    (hlen : (arr.length : Int) = W * H) (hlen2 : (nextarr.length : Int) = W * H) {x y : Int}
    (hx0 : 1 ≤ x) (hx1 : x ≤ W - 2) (hy0 : 1 ≤ y) (hy1 : y ≤ H - 2) :
    updateCell P W arr nextarr x y
      = some (nextarr.set (get_idx_from_xy W x y).toNat (nextCell P W arr x y)) := by
  have hb := unchecked_idx_bounds (by omega : 0 ≤ x) (by omega : x < W)
    (by omega : 0 ≤ y) (by omega : y < H)
  have h0 := hb.1
  have h1 : get_idx_from_xy W x y < nextarr.length := by omega
  simp only [updateCell,
    readCell_unchecked_idx hlen (by omega : 0 ≤ x) (by omega : x < W) (by omega : 0 ≤ y)
      (by omega : y < H),
    laplaceA_unchecked_eq hlen hx0 hx1 hy0 hy1, laplaceB_unchecked_eq hlen hx0 hx1 hy0 hy1, bind, Option.bind,
    pure, writeA_eq h0 h1, writeB_set_self h0 h1, writeA_set_self h0 h1,
    readCell_set_self h0 h1, nextCell]

/-- One step of `src/nonparallel.cpp` on buffers of `W * H` cells succeeds; the new
current buffer holds `valAt` at every interior index and the cell of the old `nextarr`
everywhere else, and the new `nextarr` is the old `arr`. -/
theorem updatearr_spec (P : Params α) {W H : Int} {arr nextarr : List (Cell α)}
    (hlen : (arr.length : Int) = W * H) (hlen2 : (nextarr.length : Int) = W * H) :
    ∃ cur, updatearr P W H arr nextarr = some (cur, arr) ∧
      cur.length = nextarr.length ∧
      (∀ j, ((1 ≤ rowOf W j ∧ rowOf W j < H - 1) ∧ 1 ≤ colOf W j ∧ colOf W j < W - 1) →
        cur[j]? = some (valAt P W arr j)) ∧
      (∀ j, ¬ ((1 ≤ rowOf W j ∧ rowOf W j < H - 1) ∧ 1 ≤ colOf W j ∧ colOf W j < W - 1) →
        cur[j]? = nextarr[j]?) := by
  have hupd : ∀ x y : Int, 1 ≤ x → x < W - 1 → 1 ≤ y → y < H - 1 → ∀ nx : List (Cell α),
      nx.length = arr.length →
      Writes arr.length (valAt P W arr) (fun j => rowOf W j = y ∧ colOf W j = x) nx
        (updateCell P W arr nx x y) := by
    intro x y hx0 hx1 hy0 hy1 nx hnx
    have hidx := unchecked_idx_bounds (by omega : 0 ≤ x) (by omega : x < W)
      (by omega : 0 ≤ y) (by omega : y < H)
    refine ⟨_, updateCell_unchecked_eq P hlen (by omega) hx0 (by omega) hy0 (by omega),
      by simp only [List.length_set]; exact hnx, ?_, ?_⟩
    · intro j hj
      have hj2 := (rowOf_colOf_iff (by omega : 0 ≤ x) (by omega : x < W) j).1 hj
      have hjeq : (get_idx_from_xy W x y).toNat = j := by
        simp only [get_idx_from_xy] at hidx ⊢; omega
      rw [hjeq, List.getElem?_set_self (by omega)]
      simp only [valAt, hj.1, hj.2]
    · intro j hj
      have hne : (get_idx_from_xy W x y).toNat ≠ j := by
        intro h
        apply hj
        apply (rowOf_colOf_iff (by omega : 0 ≤ x) (by omega : x < W) j).2
        simp only [get_idx_from_xy] at hidx h; omega
      rw [List.getElem?_set_ne hne]
  obtain ⟨cur, h1, h2, h3, h4⟩ := rowLoops_writes
    (fun nx x y => updateCell P W arr nx x y) hupd
    nextarr (by omega : nextarr.length = arr.length)
  refine ⟨cur, ?_, by omega, h3, h4⟩
  simp only [updatearr, h1, bind, Option.bind, pure]

end Generic

end Nonparallel

/-! ## C1: clamping invariant -/

theorem clamp01_bounds {α : Type} [Zero α] [One α] [LinearOrder α] (h01 : (0 : α) ≤ 1) (v : α) :
    0 ≤ stdMax 0 (stdMin 1 v) ∧ stdMax 0 (stdMin 1 v) ≤ 1 := by
  unfold stdMax stdMin
  split_ifs with h1 h2 h2
  · exact ⟨h2.le, h1.le⟩
  · exact ⟨le_refl _, h01⟩
  · exact ⟨h01, le_refl _⟩
  · exact ⟨le_refl _, h01⟩

theorem readCell_eq_getElem? {α : Type} {arr : List (Cell α)} {i : Int} (h0 : 0 ≤ i) :
    readCell arr i = arr[i.toNat]? := by
  simp [readCell, h0]

/-- C1. For every arithmetic on the cell values whose order is linear with `0 ≤ 1`,
every pair of buffers of `W * H` cells, every parameter setting and every worker count
`N ≥ 1`, one `updatearr` of `src/parallel.cpp` succeeds and every cell `(x, y)` with
`1 ≤ x ≤ W-2`, `1 ≤ y ≤ H-2` of the new current buffer has `0 ≤ a ≤ 1` and `0 ≤ b ≤ 1`. -/
theorem clamping_invariant {α : Type} [Zero α] [One α] [Neg α] [Add α] [Sub α] [Mul α]
    [OfScientific α] [LinearOrder α] (h01 : (0 : α) ≤ 1) (P : Params α) (W H N : Int)
    (hW : 0 < W) (hH : 0 < H) (hN : 1 ≤ N) (arr nextarr : List (Cell α))
    (hlen : (arr.length : Int) = W * H) (hlen2 : (nextarr.length : Int) = W * H) :
    ∃ cur nxt, updatearr P W H N arr nextarr = some (cur, nxt) ∧
      ∀ x y : Int, 1 ≤ x → x ≤ W - 2 → 1 ≤ y → y ≤ H - 2 →
        ∃ c, readCell cur (get_idx_from_xy W H x y) = some c ∧
          0 ≤ c.a ∧ c.a ≤ 1 ∧ 0 ≤ c.b ∧ c.b ≤ 1 := by
  obtain ⟨cur, h1, -, h3, -⟩ := updatearrIn_spec P hH hN
    (fun i hi => by rw [mem_forRange] at hi; exact hi) hlen hlen2
  refine ⟨cur, arr, h1, ?_⟩
  intro x y hx0 hx1 hy0 hy1
  have hidx := get_idx_from_xy_inside (by omega : 0 ≤ x) (by omega : x < W)
    (by omega : 0 ≤ y) (by omega : y < H)
  have hb := get_idx_from_xy_bounds hW hH x y
  have hj : rowOf W (get_idx_from_xy W H x y).toNat = y ∧
      colOf W (get_idx_from_xy W H x y).toNat = x :=
    (rowOf_colOf_iff (by omega) (by omega) _).2 (by omega)
  obtain ⟨i, hi, hband⟩ := band_cover hH hN hy0 hy1
  have hst : Stored (forRange 0 N) W H N (get_idx_from_xy W H x y).toNat :=
    ⟨i, mem_forRange.2 hi, by rw [hj.1]; exact hband, by rw [hj.2]; omega⟩
  refine ⟨valAt P W H arr (get_idx_from_xy W H x y).toNat, ?_, ?_⟩
  · rw [readCell_eq_getElem? hb.1]
    exact h3 _ hst
  · simp only [valAt, nextCell]
    exact ⟨(clamp01_bounds h01 _).1, (clamp01_bounds h01 _).2, (clamp01_bounds h01 _).1,
      (clamp01_bounds h01 _).2⟩

/-- Witness of C1 on a 3x3 buffer with two workers, at the interior cell `(1, 1)`. -/
theorem clamping_invariant_witness :
    ∃ cur nxt c, updatearr scenarioParams 3 3 2 grid3 grid3 = some (cur, nxt) ∧
      readCell cur (get_idx_from_xy 3 3 1 1) = some c ∧
        0 ≤ c.a ∧ c.a ≤ 1 ∧ 0 ≤ c.b ∧ c.b ≤ 1 := by
  obtain ⟨cur, nxt, h, hall⟩ := clamping_invariant zero_le_one scenarioParams 3 3 2
    (by decide) (by decide) (by decide) grid3 grid3 (by decide) (by decide)
  obtain ⟨c, hc⟩ := hall 1 1 (by decide) (by decide) (by decide) (by decide)
  exact ⟨cur, nxt, c, h, hc⟩

/-! ## C2: the border after a step -/

/-- C2 (behaviour of the code). For buffers of `W * H` cells, one `updatearr` of
`src/parallel.cpp` (any worker count `N ≥ 1`) and of `src/nonparallel.cpp` succeeds and
the new current buffer holds, at every index of row `0`, column `0` and column `W-1`
(and of row `H-1`, for `src/parallel.cpp` when `N ≠ H`), the cell that the old `nextarr`
held there: a border cell of `arr` that differs from `nextarr` is not retained. -/
theorem border_taken_from_nextarr {α : Type} [Zero α] [One α] [Neg α] [Add α] [Sub α] [Mul α]
    [OfScientific α] [LT α] [∀ x y : α, Decidable (x < y)] (P : Params α) (W H N : Int)
    (hH : 0 < H) (hN : 1 ≤ N) (arr nextarr : List (Cell α))
    (hlen : (arr.length : Int) = W * H) (hlen2 : (nextarr.length : Int) = W * H) :
    (∃ cur, updatearr P W H N arr nextarr = some (cur, arr) ∧
      ∀ j : Nat, (rowOf W j = 0 ∨ colOf W j = 0 ∨ colOf W j = W - 1 ∨
          (rowOf W j = H - 1 ∧ N ≠ H)) → cur[j]? = nextarr[j]?) ∧
    (∃ cur, Nonparallel.updatearr P W H arr nextarr = some (cur, arr) ∧
      ∀ j : Nat, (rowOf W j = 0 ∨ colOf W j = 0 ∨ colOf W j = W - 1 ∨ rowOf W j = H - 1) →
        cur[j]? = nextarr[j]?) := by
  constructor
  · obtain ⟨cur, h1, -, -, h4⟩ := updatearrIn_spec P hH hN
      (fun i hi => by rw [mem_forRange] at hi; exact hi) hlen hlen2
    refine ⟨cur, h1, fun j hj => h4 j ?_⟩
    rintro ⟨i, hi, hrow, hcol⟩
    rw [mem_forRange] at hi
    have hg := band_in_grid hH hN hi.1 hi.2
    rcases hj with h | h | h | ⟨h, hne⟩
    · omega
    · omega
    · omega
    · have := band_interior hH hN (Or.inl hne) hi.1 hi.2 hrow.1 hrow.2
      omega
  · obtain ⟨cur, h1, -, -, h4⟩ := Nonparallel.updatearr_spec P hlen hlen2
    refine ⟨cur, h1, fun j hj => h4 j ?_⟩
    rintro ⟨hrow, hcol⟩
    rcases hj with h | h | h | h <;> omega

/-- Witness of C2 on a 3x3 grid: `nextarr` is the initial buffer `grid3`, `arr` the
same buffer after a brush at the corner `(0, 0)`; after the step, in both sources, the
corner of the current buffer is the unbrushed cell `⟨1, 0⟩` of `nextarr`, not the cell
`⟨0, 1⟩` that `arr` held. -/
theorem border_taken_from_nextarr_witness :
    brush 3 3 2 grid3 0 0 = some brushed3 ∧ brushed3[0]? = some ⟨0, 1⟩ ∧
    (∃ cur, updatearr scenarioParams 3 3 1 brushed3 grid3 = some (cur, brushed3) ∧
      cur[0]? = some ⟨1, 0⟩) ∧
    (∃ cur, Nonparallel.updatearr scenarioParams 3 3 brushed3 grid3 = some (cur, brushed3) ∧
      cur[0]? = some ⟨1, 0⟩) := by
  obtain ⟨⟨cur, h1, h2⟩, ⟨cur2, h3, h4⟩⟩ := border_taken_from_nextarr scenarioParams 3 3 1
    (by decide) (by decide) brushed3 grid3 (by decide) (by decide)
  exact ⟨by decide, by decide, ⟨cur, h1, h2 0 (Or.inl (by decide))⟩,
    ⟨cur2, h3, h4 0 (Or.inl (by decide))⟩⟩

/-! ## C3: one worker against `N` workers -/

/-- With a worker count other than `H` (or with one worker), the stored indices are
exactly the interior cells, whatever the order of the workers. -/
theorem stored_iff_interior {W H N : Int} (hH : 0 < H) (hN : 1 ≤ N) (hne : N ≠ H ∨ N = 1)
    {order : List Int} (horder : ∀ i, i ∈ order ↔ 0 ≤ i ∧ i < N) (j : Nat) :
    Stored order W H N j ↔
      (1 ≤ rowOf W j ∧ rowOf W j ≤ H - 2) ∧ 1 ≤ colOf W j ∧ colOf W j < W - 1 := by
  constructor
  · rintro ⟨i, hi, hrow, hcol⟩
    rw [horder] at hi
    exact ⟨band_interior hH hN hne hi.1 hi.2 hrow.1 hrow.2, hcol⟩
  · rintro ⟨hrow, hcol⟩
    obtain ⟨i, hi, hband⟩ := band_cover hH hN hrow.1 hrow.2
    exact ⟨i, (horder i).2 hi, hband, hcol⟩

/-- C3 (behaviour of the code). For buffers of `W * H` cells: (1) with any worker count
`N > 1` other than `H`, the workers run in any order, `updatearr` of `src/parallel.cpp`
returns the same buffers as with one worker; (2) with `N = H ≥ 2` workers it does not:
worker `H - 2` integrates the border row `H - 1`, which one worker leaves as in
`nextarr`. -/
theorem workers_against_one {α : Type} [Zero α] [One α] [Neg α] [Add α] [Sub α] [Mul α]
    [OfScientific α] [LT α] [∀ x y : α, Decidable (x < y)] (P : Params α) (W H : Int)
    (hW : 0 < W) (hH : 0 < H) (arr nextarr : List (Cell α))
    (hlen : (arr.length : Int) = W * H) (hlen2 : (nextarr.length : Int) = W * H) :
    (∀ (N : Int) (order : List Int), 1 < N → N ≠ H → (∀ i, i ∈ order ↔ 0 ≤ i ∧ i < N) →
      updatearrIn order P W H N arr nextarr = updatearr P W H 1 arr nextarr) ∧
    (2 ≤ H → ∃ cur1 curH, updatearr P W H 1 arr nextarr = some (cur1, arr) ∧
      updatearr P W H H arr nextarr = some (curH, arr) ∧
      ∀ x : Int, 1 ≤ x → x ≤ W - 2 →
        readCell cur1 (get_idx_from_xy W H x (H - 1))
          = readCell nextarr (get_idx_from_xy W H x (H - 1)) ∧
        readCell curH (get_idx_from_xy W H x (H - 1))
          = some (nextCell P W H arr x (H - 1))) := by
  have hone : ∀ i : Int, i ∈ forRange 0 1 ↔ 0 ≤ i ∧ i < 1 := fun i => mem_forRange
  obtain ⟨cur1, h1, hl1, hs1, hk1⟩ := updatearrIn_spec P hH (le_refl 1)
    (fun i hi => (hone i).1 hi) hlen hlen2
  constructor
  · intro N order hN hne horder
    obtain ⟨cur, h2, hl2, hs2, hk2⟩ := updatearrIn_spec P hH hN.le
      (fun i hi => (horder i).1 hi) hlen hlen2
    rw [updatearr, h1, h2]
    have : cur = cur1 := by
      apply List.ext_getElem?
      intro j
      by_cases hj : Stored order W H N j
      · rw [hs2 j hj, hs1 j ((stored_iff_interior hH (le_refl 1) (Or.inr rfl) hone j).2
          ((stored_iff_interior hH hN.le (Or.inl hne) horder j).1 hj))]
      · rw [hk2 j hj, hk1 j (fun h => hj ((stored_iff_interior hH hN.le (Or.inl hne) horder j).2
          ((stored_iff_interior hH (le_refl 1) (Or.inr rfl) hone j).1 h)))]
    rw [this]
  · intro hH2
    obtain ⟨curH, h2, hl2, hs2, hk2⟩ := updatearrIn_spec P hH (by omega : 1 ≤ H)
      (fun i hi => by rw [mem_forRange] at hi; exact hi) hlen hlen2
    refine ⟨cur1, curH, h1, h2, ?_⟩
    intro x hx0 hx1
    have hidx := get_idx_from_xy_inside (by omega : 0 ≤ x) (by omega : x < W)
      (by omega : 0 ≤ H - 1) (by omega : H - 1 < H)
    have hb := get_idx_from_xy_bounds hW hH x (H - 1)
    have hj : rowOf W (get_idx_from_xy W H x (H - 1)).toNat = H - 1 ∧
        colOf W (get_idx_from_xy W H x (H - 1)).toNat = x :=
      (rowOf_colOf_iff (by omega) (by omega) _).2 (by omega)
    rw [readCell_eq_getElem? hb.1, readCell_eq_getElem? hb.1, readCell_eq_getElem? hb.1]
    constructor
    · apply hk1
      intro hst
      have := ((stored_iff_interior hH (le_refl 1) (Or.inr rfl) hone _).1 hst).1
      omega
    · have hdiv : H / H = 1 := Int.ediv_self (by omega)
      rw [hs2 _ ⟨H - 2, mem_forRange.2 ⟨by omega, by omega⟩, ?_, by omega⟩]
      · simp only [valAt, hj.1, hj.2]
      · rw [band_fst hH.le (by omega), band_snd hH.le (by omega) (by omega), hdiv, hj.1]
        omega

/-- Witness of C3 on a 3x3 grid: two workers in the order `1, 0` give the result of
one worker; three workers (`N = H`) do not: the cell `(1, 2)` of the border row is
integrated to `b = 1/10`, where one worker keeps the cell `⟨1, 0⟩` of `nextarr`. -/
theorem workers_against_one_witness :
    updatearrIn [1, 0] scenarioParams 3 3 2 grid3 grid3
      = updatearr scenarioParams 3 3 1 grid3 grid3 ∧
    (∃ cur1 curH, updatearr scenarioParams 3 3 1 grid3 grid3 = some (cur1, grid3) ∧
      updatearr scenarioParams 3 3 3 grid3 grid3 = some (curH, grid3) ∧
      readCell cur1 (get_idx_from_xy 3 3 1 2) = some ⟨1, 0⟩ ∧
      readCell curH (get_idx_from_xy 3 3 1 2) = some ⟨1, 1 / 10⟩) ∧
    updatearr scenarioParams 3 3 3 grid3 grid3 ≠ updatearr scenarioParams 3 3 1 grid3 grid3 := by
  have h := workers_against_one scenarioParams 3 3 (by decide) (by decide) grid3 grid3
    (by decide) (by decide)
  obtain ⟨cur1, curH, h1, h2, h3⟩ := h.2 (by decide)
  have h4 := h3 1 (by decide) (by decide)
  refine ⟨h.1 2 [1, 0] (by decide) (by decide) (fun i => ?_), ⟨cur1, curH, h1, h2, ?_, ?_⟩, ?_⟩
  · simp only [List.mem_cons, List.mem_singleton, List.not_mem_nil, or_false]
    omega
  · rw [show (3 : Int) - 1 = 2 by decide] at h4
    rw [h4.1]
    decide
  · rw [show (3 : Int) - 1 = 2 by decide] at h4
    rw [h4.2]
    decide!
  · decide!

/-! ## C4: the integrator against the formula of the specification -/

theorem stdClamp_eq_clamp01 {α : Type} [LinearOrderedField α] (v : α) :
    stdMax 0 (stdMin 1 v) = clamp01 v := by
  unfold stdMax stdMin clamp01
  rcases le_or_lt 1 v with h | h
  · rw [if_neg (not_lt.2 h), if_pos zero_lt_one, min_eq_left h, max_eq_right zero_le_one]
  · rw [if_pos h, min_eq_right h.le]
    rcases le_or_lt v 0 with h2 | h2
    · rw [if_neg (not_lt.2 h2), max_eq_left h2]
    · rw [if_pos h2, max_eq_right h2.le]

/-- A band of a lower worker ends at or before the start of the band of a higher one. -/
theorem band_snd_le_fst {H N : Int} (hH : 0 < H) (hN : 1 ≤ N) {i k : Int} (hik : i < k)
    (hk : k < N) : (band H N i).2 ≤ (band H N k).1 := by
  have hc0 : 0 ≤ H / N := Int.ediv_nonneg hH.le (by omega)
  rw [band_fst hH.le hN, band_snd hH.le hN (by omega)]
  have h1 : (i + 1) * (H / N) ≤ k * (H / N) := mul_le_mul_of_nonneg_right (by omega) hc0
  have h2 : (i + 1) * (H / N) = i * (H / N) + H / N := by ring
  omega

/-- C5 (behaviour of the code). For `H > 0` and `N ≥ 1` workers the bands of `updatearr`
are contiguous and every interior row lies in the band of exactly one worker; when
`N ≠ H` no band holds a border row; when `N = H ≥ 2` the band of worker `H - 2` is
`[H - 1, H)`, the border row `H - 1`. -/
theorem row_partition (H N : Int) (hH : 0 < H) (hN : 1 ≤ N) :
    (∀ i, 0 ≤ i → i < N - 1 → (band H N i).2 = (band H N (i + 1)).1) ∧
    (∀ y, 1 ≤ y → y ≤ H - 2 → ∃ i, (0 ≤ i ∧ i < N) ∧
      ((band H N i).1 ≤ y ∧ y < (band H N i).2) ∧
      ∀ k, 0 ≤ k → k < N → (band H N k).1 ≤ y → y < (band H N k).2 → k = i) ∧
    (N ≠ H → ∀ i y, 0 ≤ i → i < N → (band H N i).1 ≤ y → y < (band H N i).2 →
      1 ≤ y ∧ y ≤ H - 2) ∧
    (N = H → 2 ≤ H → band H N (H - 2) = (H - 1, H)) := by
  refine ⟨?_, ?_, ?_, ?_⟩
  · intro i hi0 hi1
    rw [band_fst hH.le hN, band_snd hH.le hN (by omega)]
    ring
  · intro y hy0 hy1
    obtain ⟨i, hi, hband⟩ := band_cover hH hN hy0 hy1
    refine ⟨i, hi, hband, ?_⟩
    intro k hk0 hk1 hk2 hk3
    rcases lt_trichotomy k i with h | h | h
    · have := band_snd_le_fst hH hN h hi.2
      omega
    · exact h
    · have := band_snd_le_fst hH hN h hk1
      omega
  · intro hne i y hi0 hi1 hy0 hy1
    exact band_interior hH hN (Or.inl hne) hi0 hi1 hy0 hy1
  · intro hNH hH2
    subst hNH
    have hdiv : N / N = 1 := Int.ediv_self (by omega)
    have h1 := band_fst hH.le hN (N - 2)
    have h2 := band_snd hH.le hN (by omega : N - 2 ≠ N - 1)
    rw [hdiv] at h1 h2
    exact Prod.ext (by rw [h1]; ring) (by rw [h2]; ring)

/-- Witness of C5 at `HEIGHT = 800`: with 800 workers, worker 798 is handed the border
row 799; with 8 workers, row 500 lies in the band of exactly one worker. -/
theorem row_partition_witness :
    band 800 800 (800 - 2) = (800 - 1, 800) ∧
    ∃ i, (0 ≤ i ∧ i < 8) ∧ ((band 800 8 i).1 ≤ 500 ∧ 500 < (band 800 8 i).2) ∧
      ∀ k, 0 ≤ k → k < 8 → (band 800 8 k).1 ≤ 500 → 500 < (band 800 8 k).2 → k = i :=
  ⟨(row_partition 800 800 (by decide) (by decide)).2.2.2 rfl (by decide),
    (row_partition 800 8 (by decide) (by decide)).2.1 500 (by decide) (by decide)⟩

/-! ## C6: band heights -/

/-- C6 (counterexample). With `HEIGHT = 800` and 8 workers, worker 0 has 100 rows and
worker 7 has 98 rows: two bands differ by two rows. -/
theorem band_balance_counterexample :
    (1 : Int) ≤ 8 ∧ (8 : Int) ≤ 800 - 2 ∧ bandHeight 800 8 0 = 100 ∧ bandHeight 800 8 7 = 98 ∧
    ¬ (∀ i k : Int, 0 ≤ i → i < 8 → 0 ≤ k → k < 8 →
      |bandHeight 800 8 i - bandHeight 800 8 k| ≤ 1) := by
  refine ⟨by decide, by decide, by decide, by decide, ?_⟩
  intro h
  have h2 := h 0 7 (by decide) (by decide) (by decide) (by decide)
  revert h2
  decide

/-- C6 (amended). For `1 ≤ N ≤ H - 2` the bands of the workers `0 .. N-2` all have
`H / N` rows (integer division) and the band of the last worker has
`H / N + H % N - 2` rows. -/
theorem band_heights (H N : Int) (hN : 1 ≤ N) (hNH : N ≤ H - 2) :
    (∀ i, 0 ≤ i → i < N - 1 → bandHeight H N i = H / N) ∧
    bandHeight H N (N - 1) = H / N + H % N - 2 := by
  have hH : 0 ≤ H := by omega
  constructor
  · intro i hi0 hi1
    rw [bandHeight, band_fst hH hN, band_snd hH hN (by omega)]
    ring
  · rw [bandHeight, band_fst hH hN, band_snd_last]
    have := Int.emod_add_ediv H N
    have h3 : (N - 1) * (H / N) = N * (H / N) - H / N := by ring
    omega

/-- Witness of C6 (amended) at `HEIGHT = 800` with 8 workers. -/
theorem band_heights_witness :
    (∀ i, 0 ≤ i → i < 8 - 1 → bandHeight 800 8 i = 800 / 8) ∧
    bandHeight 800 8 (8 - 1) = 800 / 8 + 800 % 8 - 2 :=
  band_heights 800 8 (by decide) (by decide)

/-! ## C7: zero hardware threads -/

/-- C7 (behaviour of the code). When `std::thread::hardware_concurrency()` is `0`,
`updatearr` of `src/parallel.cpp` evaluates `HEIGHT / 0` and has no result: there is
no fallback to one worker. -/
theorem updatearr_zero_threads {α : Type} [Zero α] [One α] [Neg α] [Add α] [Sub α] [Mul α]
    [OfScientific α] [LT α] [∀ x y : α, Decidable (x < y)] (P : Params α) (W H : Int)
    (arr nextarr : List (Cell α)) :
    updatearr P W H 0 arr nextarr = none := by
  simp [updatearr, updatearrIn]

/-! ## C8: the weights of the stencil -/

/-- C8 (counterexample). In binary64 arithmetic the nine weights, added in the order of
the source, do not sum to `0`, and on the 3x3 buffer whose cells all hold `a = b = 1`
both stencils return `-5 · 2^(-56)` at the interior cell `(1, 1)`, not `0`. -/
theorem stencil_sum_counterexample :
    (0 : F64) + -1 + 0.2 + 0.2 + 0.2 + 0.2 + 0.05 + 0.05 + 0.05 + 0.05 ≠ 0 ∧
    (∀ c ∈ uniform3, c.a = 1 ∧ c.b = 1) ∧
    laplaceA 3 3 1 1 uniform3 = some ⟨-((5 * 2 ^ 1018 : Nat) : Int)⟩ ∧
    laplaceB 3 3 1 1 uniform3 = some ⟨-((5 * 2 ^ 1018 : Nat) : Int)⟩ ∧
    laplaceA 3 3 1 1 uniform3 ≠ some 0 ∧ laplaceB 3 3 1 1 uniform3 ≠ some 0 := by
  decide!

theorem cellAt_mem {α : Type} [Zero α] {arr : List (Cell α)} {i : Int} (h0 : 0 ≤ i)
    (h1 : i < arr.length) : cellAt arr i ∈ arr := by
  obtain ⟨c, hc, hget⟩ := readCell_of_lt h0 h1
  have : cellAt arr i = c := by simp [cellAt, hc]
  rw [this]
  exact List.getElem?_mem hget

theorem stencil_const {α : Type} [LinearOrderedField α] (c : α) (x y : Int) :
    stencil (fun _ _ => c) x y = 0 := by
  simp only [stencil]
  norm_num
  ring

/-- C8 (amended). In exact (ordered-field) arithmetic the nine weights sum to `0`, and
for every buffer of `W * H` cells whose field `a` has the same value `c` in every cell
`laplaceA` returns `0` at every interior cell, whatever the field `b` holds; likewise
`laplaceB` returns `0` at every interior cell of every buffer whose field `b` has the
same value `c` in every cell, whatever the field `a` holds. -/
theorem stencil_sum_zero {α : Type} [LinearOrderedField α] (W H : Int) (hW : 0 < W)
    (hH : 0 < H) (arr : List (Cell α)) (hlen : (arr.length : Int) = W * H) (c : α) :
    (0 : α) + -1 + 0.2 + 0.2 + 0.2 + 0.2 + 0.05 + 0.05 + 0.05 + 0.05 = 0 ∧
    ((∀ cell ∈ arr, cell.a = c) →
      ∀ x y : Int, 1 ≤ x → x ≤ W - 2 → 1 ≤ y → y ≤ H - 2 → laplaceA W H x y arr = some 0) ∧
    ((∀ cell ∈ arr, cell.b = c) →
      ∀ x y : Int, 1 ≤ x → x ≤ W - 2 → 1 ≤ y → y ≤ H - 2 → laplaceB W H x y arr = some 0) := by
  have hmem : ∀ u v : Int, cellAt arr (get_idx_from_xy W H u v) ∈ arr := fun u v =>
    cellAt_mem (get_idx_from_xy_bounds hW hH u v).1
      (by have := (get_idx_from_xy_bounds hW hH u v).2; omega)
  refine ⟨by norm_num, ?_, ?_⟩
  · intro hua x y _ _ _ _
    have ha : (fun u v => (cellAt arr (get_idx_from_xy W H u v)).a) = fun _ _ => c := by
      funext u v
      exact hua _ (hmem u v)
    rw [laplaceA_eq hW hH hlen, ha, stencil_const]
  · intro hub x y _ _ _ _
    have hb : (fun u v => (cellAt arr (get_idx_from_xy W H u v)).b) = fun _ _ => c := by
      funext u v
      exact hub _ (hmem u v)
    rw [laplaceB_eq hW hH hlen, hb, stencil_const]

/-- Witness of C8 (amended) at the cell `(1, 1)` of two 3x3 rational buffers: `grid3`,
where `a` is `1` everywhere and `b` is not uniform (`laplaceB` is `-1` there), and
`dented3`, where `b` is `1/3` everywhere and `a` is not uniform (`laplaceA` is `1`). -/
theorem stencil_sum_zero_witness :
    ((0 : ℚ) + -1 + 0.2 + 0.2 + 0.2 + 0.2 + 0.05 + 0.05 + 0.05 + 0.05 = 0) ∧
    ((∀ cell ∈ grid3, cell.a = 1) ∧ laplaceA 3 3 1 1 grid3 = some 0 ∧
      laplaceB 3 3 1 1 grid3 = some (-1)) ∧
    ((∀ cell ∈ dented3, cell.b = 1 / 3) ∧ laplaceB 3 3 1 1 dented3 = some 0 ∧
      laplaceA 3 3 1 1 dented3 = some 1) :=
  have hA : ∀ cell ∈ grid3, cell.a = 1 := by decide!
  have hB : ∀ cell ∈ dented3, cell.b = 1 / 3 := by decide!
  have h1 := stencil_sum_zero 3 3 (by decide) (by decide) grid3 (by decide) 1
  have h2 := stencil_sum_zero 3 3 (by decide) (by decide) dented3 (by decide) (1 / 3)
  ⟨h1.1, ⟨hA, h1.2.1 hA 1 1 (by decide) (by decide) (by decide) (by decide), by decide!⟩,
    ⟨hB, h2.2.2 hB 1 1 (by decide) (by decide) (by decide) (by decide), by decide!⟩⟩

/-! ## C9: clamped addressing -/

/-- C9. For positive `W`, `H` and every pair of integers `(x, y)`, `get_idx_from_xy` of
`src/parallel.cpp` returns an index in `[0, W * H)`, equal to
`clamp(y, 0, H-1) * W + clamp(x, 0, W-1)`; hence on every buffer of `W * H` cells all
nine reads of `laplaceA` and of `laplaceB` are in bounds, at every `(x, y)`. -/
theorem clamped_addressing_safe {α : Type} [Zero α] [One α] [Neg α] [Add α] [Mul α]
    [OfScientific α] (W H : Int) (hW : 0 < W) (hH : 0 < H) (x y : Int) :
    (0 ≤ get_idx_from_xy W H x y ∧ get_idx_from_xy W H x y < W * H) ∧
    get_idx_from_xy W H x y = max 0 (min (H - 1) y) * W + max 0 (min (W - 1) x) ∧
    ∀ arr : List (Cell α), (arr.length : Int) = W * H →
      (laplaceA W H x y arr).isSome = true ∧ (laplaceB W H x y arr).isSome = true := by
  refine ⟨get_idx_from_xy_bounds hW hH x y, get_idx_from_xy_clamp W H x y, ?_⟩
  intro arr hlen
  have hmem : ∀ u v : Int,
      readCell arr (get_idx_from_xy W H u v) = some (cellAt arr (get_idx_from_xy W H u v)) :=
    fun u v => readCell_get_idx hW hH hlen u v
  constructor
  · simp only [laplaceA, hmem, bind, Option.bind, pure, Option.isSome_some]
  · simp only [laplaceB, hmem, bind, Option.bind, pure, Option.isSome_some]

/-- Witness of C9 on the 3x3 buffer `grid3`, at the out-of-grid coordinate `(-5, 7)`. -/
theorem clamped_addressing_safe_witness :
    (0 ≤ get_idx_from_xy 3 3 (-5) 7 ∧ get_idx_from_xy 3 3 (-5) 7 < 3 * 3) ∧
    get_idx_from_xy 3 3 (-5) 7 = max 0 (min (3 - 1) 7) * 3 + max 0 (min (3 - 1) (-5)) ∧
    (laplaceA 3 3 (-5) 7 grid3).isSome = true ∧ (laplaceB 3 3 (-5) 7 grid3).isSome = true :=
  have h := clamped_addressing_safe 3 3 (by decide) (by decide) (-5) 7
  ⟨h.1, h.2.1, h.2.2 grid3 (by decide)⟩

/-! ## C10: the brush and the bounds of the buffer -/

theorem Writes.skip {β : Type} {n : Nat} {val : Nat → β} {Wr : Nat → Prop} {nx : List β}
    (hn : nx.length = n) (h : ∀ j, ¬ Wr j) : Writes n val Wr nx (some nx) :=
  ⟨nx, rfl, hn, fun j hj => absurd hj (h j), fun _ _ => rfl⟩

/-- The guarded loops of the brush succeed for every centre and store `a = 0, b = 1`
at exactly the in-grid cells of the window. -/
theorem brushLoop_writes {α : Type} [Zero α] [One α] {W H : Int} {n : Nat}
    (hn : (n : Int) = W * H) (stroke x y : Int) (arr : List (Cell α)) (hlen : arr.length = n) :
    Writes n (fun _ => (⟨0, 1⟩ : Cell α)) (InBrush W H (Int.tdiv stroke 2) x y) arr
      (brushLoop W H stroke arr x y) := by
  unfold brushLoop
  refine (Writes.foldlM
    (fun (i : Int) (k : Nat) => (0 ≤ i ∧ i < H) ∧ rowOf W k = i ∧
      (x - Int.tdiv stroke 2 ≤ colOf W k ∧ colOf W k < x + Int.tdiv stroke 2 ∧
        0 ≤ colOf W k ∧ colOf W k < W))
    _ _ ?_ arr hlen).mono ?_
  · intro i _ nx hnx
    by_cases hi : i < 0 ∨ i ≥ H
    · rw [if_pos hi]
      exact Writes.skip hnx (fun j hj => by omega)
    · rw [if_neg hi]
      refine (Writes.foldlM
        (fun (j : Int) (k : Nat) => (0 ≤ j ∧ j < W) ∧ rowOf W k = i ∧ colOf W k = j)
        _ _ ?_ nx hnx).mono ?_
      · intro j _ nx2 hnx2
        by_cases hj : j < 0 ∨ j ≥ W
        · rw [if_pos hj]
          exact Writes.skip hnx2 (fun k hk => by omega)
        · rw [if_neg hj]
          have hb := Nonparallel.unchecked_idx_bounds (by omega : 0 ≤ j) (by omega : j < W)
            (by omega : 0 ≤ i) (by omega : i < H)
          simp only [Nonparallel.get_idx_from_xy] at hb
          have h1 : i * W + j < nx2.length := by omega
          refine ⟨nx2.set (i * W + j).toNat ⟨0, 1⟩, ?_, by simp only [List.length_set]; exact hnx2,
            ?_, ?_⟩
          · simp only [bind, Option.bind, pure, writeB_eq hb.1 h1, writeA_set_self hb.1 h1]
          · intro k hk
            have hk2 := (rowOf_colOf_iff (by omega : 0 ≤ j) (by omega : j < W) k).1 hk.2
            have hkeq : (i * W + j).toNat = k := by omega
            rw [hkeq, List.getElem?_set_self (by omega)]
          · intro k hk
            have hne : (i * W + j).toNat ≠ k := by
              intro h
              apply hk
              refine ⟨by omega, ?_⟩
              apply (rowOf_colOf_iff (by omega : 0 ≤ j) (by omega : j < W) k).2
              omega
            rw [List.getElem?_set_ne hne]
      · intro k
        constructor
        · rintro ⟨j, hj, hj2, h1, h2⟩
          rw [mem_forRange] at hj
          exact ⟨by omega, h1, by omega, by omega, by omega, by omega⟩
        · rintro ⟨_, h1, h2, h3, h4, h5⟩
          exact ⟨colOf W k, mem_forRange.2 ⟨h2, h3⟩, ⟨h4, h5⟩, h1, rfl⟩
  · intro k
    constructor
    · rintro ⟨i, hi, hi2, h1, h2⟩
      rw [mem_forRange] at hi
      exact ⟨⟨by omega, by omega, by omega, by omega⟩, h2⟩
    · rintro ⟨⟨h1, h2, h3, h4⟩, h5⟩
      exact ⟨rowOf W k, mem_forRange.2 ⟨h1, h2⟩, ⟨h3, h4⟩, rfl, h5⟩

/-- C10 (behaviour of the code). On a buffer of `W * H` cells the guarded loops of the
brush succeed for every centre `(x, y)`, but the store `arr[y * WIDTH + x].b = 1.0f`
that precedes them is unguarded: for every centre with `y * W + x` outside
`[0, W * H)` the brush writes out of bounds and has no result. -/
theorem brush_unguarded_store {α : Type} [Zero α] [One α] (W H stroke : Int)
    (arr : List (Cell α)) (hlen : (arr.length : Int) = W * H) (x y : Int)
    (hout : y * W + x < 0 ∨ W * H ≤ y * W + x) :
    (brushLoop W H stroke arr x y).isSome = true ∧ brush W H stroke arr x y = none := by
  constructor
  · obtain ⟨out, h, -⟩ := brushLoop_writes (by omega : ((arr.length : Nat) : Int) = W * H)
      stroke x y arr rfl
    rw [h]; rfl
  · have hr : readCell arr (y * W + x) = none := readCell_eq_none (by omega)
    simp only [brush, writeB, hr, bind, Option.bind]

/-- Witness of C10 with the constants of `src/parallel.cpp` (`WIDTH = HEIGHT = 800`,
`stroke = 8`): the mouse at `(0, 800)` makes the brush store at index `640000`. -/
theorem brush_unguarded_store_witness :
    (0 : Int) * 800 + 800 * 800 = 640000 ∧
    (brushLoop 800 800 8 grid800 0 800).isSome = true ∧ brush 800 800 8 grid800 0 800 = none :=
  ⟨by decide, brush_unguarded_store 800 800 8 grid800
    (by rw [grid800, List.length_replicate]; decide) 0 800
    (Or.inr (by decide))⟩

/-! ## C11: the brush applied twice -/

/-- The brush on a buffer of `W * H` cells with the centre inside the grid: the
unguarded store sets `b = 1` at the centre, then the loops store `⟨0, 1⟩` on the window;
every index outside the window other than the centre keeps its cell. -/
theorem brush_spec {α : Type} [Zero α] [One α] {W H : Int} (stroke : Int)
    (arr : List (Cell α)) (hlen : (arr.length : Int) = W * H) {x y : Int} (hx0 : 0 ≤ x)
    (hx1 : x < W) (hy0 : 0 ≤ y) (hy1 : y < H) :
    ∃ out, brush W H stroke arr x y = some out ∧ out.length = arr.length ∧
      (∀ k, InBrush W H (Int.tdiv stroke 2) x y k → out[k]? = some ⟨0, 1⟩) ∧
      (∀ k, ¬ InBrush W H (Int.tdiv stroke 2) x y k → k ≠ (y * W + x).toNat →
        out[k]? = arr[k]?) ∧
      (¬ InBrush W H (Int.tdiv stroke 2) x y (y * W + x).toNat →
        out[(y * W + x).toNat]? = some ⟨(cellAt arr (y * W + x)).a, 1⟩) := by
  have hb := Nonparallel.unchecked_idx_bounds hx0 hx1 hy0 hy1
  simp only [Nonparallel.get_idx_from_xy] at hb
  have h1 : y * W + x < arr.length := by omega
  have hl0 : (arr.set (y * W + x).toNat ⟨(cellAt arr (y * W + x)).a, 1⟩).length = arr.length :=
    List.length_set _ _ _
  obtain ⟨out, ho, hlo, hin, hout⟩ := brushLoop_writes
    (by omega : ((arr.length : Nat) : Int) = W * H) stroke x y
    (arr.set (y * W + x).toNat ⟨(cellAt arr (y * W + x)).a, 1⟩) hl0
  refine ⟨out, ?_, hlo, hin, ?_, ?_⟩
  · simp only [brush, writeB_eq hb.1 h1, bind, Option.bind, ho]
  · intro k hk hne
    rw [hout k hk, List.getElem?_set_ne (fun h => hne h.symm)]
  · intro hk
    rw [hout _ hk, List.getElem?_set_self (by omega)]

/-- C11. For every buffer of `W * H` cells, every stroke width and every brush centre
`(x, y)` inside the grid, the brush of the mouse-moved handler succeeds, and applied a
second time with the same centre it returns exactly the buffer of the first time. -/
theorem brush_idempotent {α : Type} [Zero α] [One α] (W H stroke : Int)
    (arr : List (Cell α)) (hlen : (arr.length : Int) = W * H) (x y : Int) (hx0 : 0 ≤ x)
    (hx1 : x < W) (hy0 : 0 ≤ y) (hy1 : y < H) :
    ∃ out, brush W H stroke arr x y = some out ∧ brush W H stroke out x y = some out := by
  obtain ⟨out, ho, hlo, hin, hout, hc⟩ := brush_spec stroke arr hlen hx0 hx1 hy0 hy1
  refine ⟨out, ho, ?_⟩
  obtain ⟨out2, ho2, hlo2, hin2, hout2, hc2⟩ :=
    brush_spec stroke out (by omega : (out.length : Int) = W * H) hx0 hx1 hy0 hy1
  rw [ho2]
  congr 1
  apply List.ext_getElem?
  intro k
  by_cases hk : InBrush W H (Int.tdiv stroke 2) x y k
  · rw [hin2 k hk, hin k hk]
  · by_cases hke : k = (y * W + x).toNat
    · subst hke
      rw [hc2 hk]
      have h3 := hc hk
      have hb := Nonparallel.unchecked_idx_bounds hx0 hx1 hy0 hy1
      simp only [Nonparallel.get_idx_from_xy] at hb
      have : cellAt out (y * W + x) = ⟨(cellAt arr (y * W + x)).a, 1⟩ := by
        simp only [cellAt, readCell_eq_getElem? hb.1, h3, Option.getD_some]
      rw [this, h3]
    · exact hout2 k hk hke

/-- Witness of C11 with the constants of `src/parallel.cpp` (`WIDTH = HEIGHT = 800`,
`stroke = 8`), centre `(400, 400)`. -/
theorem brush_idempotent_witness :
    ∃ out, brush 800 800 8 grid800 400 400 = some out ∧
      brush 800 800 8 out 400 400 = some out :=
  brush_idempotent 800 800 8 grid800 (by rw [grid800, List.length_replicate]; decide)
    400 400 (by decide) (by decide) (by decide) (by decide)

/-! ## Loops in the `Option` monad -/

/-- A loop whose every step succeeds and keeps an invariant succeeds and keeps it. -/
theorem foldlM_inv {σ κ : Type} (Inv : σ → Prop) (f : σ → κ → Option σ) (l : List κ)
    (hf : ∀ k ∈ l, ∀ s, Inv s → ∃ s2, f s k = some s2 ∧ Inv s2) :
    ∀ s, Inv s → ∃ s2, l.foldlM f s = some s2 ∧ Inv s2 := by
  induction l with
  | nil => intro s hs; exact ⟨s, rfl, hs⟩
  | cons k l ih =>
    intro s hs
    obtain ⟨s1, h1, hs1⟩ := hf k (List.mem_cons_self k l) s hs
    obtain ⟨s2, h2, hs2⟩ := ih (fun k2 hk2 => hf k2 (List.mem_cons_of_mem k hk2)) s1 hs1
    exact ⟨s2, by simp [List.foldlM_cons, h1, h2], hs2⟩

/-- A loop with a step that fails in every state has no result. -/
theorem foldlM_none_of_mem {σ κ : Type} (f : σ → κ → Option σ) (l : List κ) (k : κ)
    (hk : k ∈ l) (hfail : ∀ s, f s k = none) : ∀ s, l.foldlM f s = none := by
  induction l with
  | nil => exact absurd hk (List.not_mem_nil k)
  | cons i l ih =>
    intro s
    rw [List.foldlM_cons]
    rcases hfi : f s i with _ | s1
    · rfl
    · rcases List.mem_cons.mp hk with rfl | hmem
      · rw [hfail s] at hfi
        exact absurd hfi (by simp)
      · exact ih hmem s1

/-! ## C12: the 5x5 scenario -/

/-- C12. The 5x5 scenario in the binary64 arithmetic of the code (`F = 0.05`, `K = 0.06`,
`Da = 1`, `Db = 0.5`, `dt = 1`, both buffers `a = 1`, `b = 0` except `b = 1` at `(2, 2)`):
one step of `src/parallel.cpp` (any worker count `N ≥ 1` other than the height 5) and
one step of `src/nonparallel.cpp` succeed, leave all 16 border cells of the current
buffer as they were and, at each of the four 4-connected neighbours of the centre, store
`a = 1 - 2^(-53)` and `b = 0.1`: the new `a` is strictly less than the old `a = 1` and
the new `b` strictly greater than the old `b = 0`. -/
theorem scenario_5x5 (N : Int) (hN : 1 ≤ N) (hNH : N ≠ 5) :
    (∃ cur nxt, updatearr scenarioParams64 5 5 N scenario5 scenario5 = some (cur, nxt) ∧
      (∀ x y : Int, 0 ≤ x → x < 5 → 0 ≤ y → y < 5 → (x = 0 ∨ x = 4 ∨ y = 0 ∨ y = 4) →
        readCell cur (y * 5 + x) = readCell scenario5 (y * 5 + x)) ∧
      ∀ p ∈ [((1 : Int), (2 : Int)), (3, 2), (2, 1), (2, 3)],
        ∃ old new, readCell scenario5 (p.2 * 5 + p.1) = some old ∧
          readCell cur (p.2 * 5 + p.1) = some new ∧ new = ⟨belowOne, 0.1⟩ ∧
          new.a < old.a ∧ old.b < new.b) ∧
    (∃ cur nxt, Nonparallel.updatearr scenarioParams64 5 5 scenario5 scenario5
        = some (cur, nxt) ∧
      (∀ x y : Int, 0 ≤ x → x < 5 → 0 ≤ y → y < 5 → (x = 0 ∨ x = 4 ∨ y = 0 ∨ y = 4) →
        readCell cur (y * 5 + x) = readCell scenario5 (y * 5 + x)) ∧
      ∀ p ∈ [((1 : Int), (2 : Int)), (3, 2), (2, 1), (2, 3)],
        ∃ old new, readCell scenario5 (p.2 * 5 + p.1) = some old ∧
          readCell cur (p.2 * 5 + p.1) = some new ∧ new = ⟨belowOne, 0.1⟩ ∧
          new.a < old.a ∧ old.b < new.b) := by
  have hone : ∀ i : Int, i ∈ forRange 0 N ↔ 0 ≤ i ∧ i < N := fun i => mem_forRange
  have hlen : ((scenario5.length : Nat) : Int) = 5 * 5 := by decide
  have hidx : ∀ x y : Int, 0 ≤ x → x < 5 → 0 ≤ y → y < 5 →
      0 ≤ y * 5 + x ∧ rowOf 5 (y * 5 + x).toNat = y ∧ colOf 5 (y * 5 + x).toNat = x := by
    intro x y hx0 hx1 hy0 hy1
    have h : rowOf 5 (y * 5 + x).toNat = y ∧ colOf 5 (y * 5 + x).toNat = x :=
      (rowOf_colOf_iff hx0 hx1 (y * 5 + x).toNat).2 (by omega)
    exact ⟨by omega, h⟩
  constructor
  · obtain ⟨cur, h1, -, h3, h4⟩ := updatearrIn_spec scenarioParams64 (by decide : (0 : Int) < 5)
      hN (fun i hi => (hone i).1 hi) hlen hlen
    refine ⟨cur, scenario5, h1, ?_, ?_⟩
    · intro x y hx0 hx1 hy0 hy1 hr
      obtain ⟨h0, hrow, hcol⟩ := hidx x y hx0 hx1 hy0 hy1
      rw [readCell_eq_getElem? h0, readCell_eq_getElem? h0]
      apply h4
      intro hst
      have := (stored_iff_interior (by decide : (0 : Int) < 5) hN (Or.inl hNH)
        hone _).1 hst
      rw [hrow, hcol] at this
      omega
    · have hnew : ∀ x y : Int, 1 ≤ x → x ≤ 3 → 1 ≤ y → y ≤ 3 →
          readCell cur (y * 5 + x) = some (nextCell scenarioParams64 5 5 scenario5 x y) := by
        intro x y hx0 hx1 hy0 hy1
        obtain ⟨h0, hrow, hcol⟩ := hidx x y (by omega) (by omega) (by omega) (by omega)
        rw [readCell_eq_getElem? h0, h3 _ ((stored_iff_interior (by decide : (0 : Int) < 5)
          hN (Or.inl hNH) hone _).2 (by rw [hrow, hcol]; omega))]
        simp only [valAt, hrow, hcol]
      intro p hp
      simp only [List.mem_cons, List.mem_singleton, List.not_mem_nil, or_false] at hp
      rcases hp with rfl | rfl | rfl | rfl
      · exact ⟨⟨1, 0⟩, _, by decide!, hnew 1 2 (by decide) (by decide) (by decide) (by decide),
          by decide!, by decide!, by decide!⟩
      · exact ⟨⟨1, 0⟩, _, by decide!, hnew 3 2 (by decide) (by decide) (by decide) (by decide),
          by decide!, by decide!, by decide!⟩
      · exact ⟨⟨1, 0⟩, _, by decide!, hnew 2 1 (by decide) (by decide) (by decide) (by decide),
          by decide!, by decide!, by decide!⟩
      · exact ⟨⟨1, 0⟩, _, by decide!, hnew 2 3 (by decide) (by decide) (by decide) (by decide),
          by decide!, by decide!, by decide!⟩
  · obtain ⟨cur, h1, -, h3, h4⟩ := Nonparallel.updatearr_spec scenarioParams64 hlen hlen
    refine ⟨cur, scenario5, h1, ?_, ?_⟩
    · intro x y hx0 hx1 hy0 hy1 hr
      obtain ⟨h0, hrow, hcol⟩ := hidx x y hx0 hx1 hy0 hy1
      rw [readCell_eq_getElem? h0, readCell_eq_getElem? h0]
      apply h4
      rw [hrow, hcol]
      omega
    · have hnew : ∀ x y : Int, 1 ≤ x → x ≤ 3 → 1 ≤ y → y ≤ 3 →
          readCell cur (y * 5 + x)
            = some (Nonparallel.nextCell scenarioParams64 5 scenario5 x y) := by
        intro x y hx0 hx1 hy0 hy1
        obtain ⟨h0, hrow, hcol⟩ := hidx x y (by omega) (by omega) (by omega) (by omega)
        rw [readCell_eq_getElem? h0, h3 _ (by rw [hrow, hcol]; omega)]
        simp only [Nonparallel.valAt, hrow, hcol]
      intro p hp
      simp only [List.mem_cons, List.mem_singleton, List.not_mem_nil, or_false] at hp
      rcases hp with rfl | rfl | rfl | rfl
      · exact ⟨⟨1, 0⟩, _, by decide!, hnew 1 2 (by decide) (by decide) (by decide) (by decide),
          by decide!, by decide!, by decide!⟩
      · exact ⟨⟨1, 0⟩, _, by decide!, hnew 3 2 (by decide) (by decide) (by decide) (by decide),
          by decide!, by decide!, by decide!⟩
      · exact ⟨⟨1, 0⟩, _, by decide!, hnew 2 1 (by decide) (by decide) (by decide) (by decide),
          by decide!, by decide!, by decide!⟩
      · exact ⟨⟨1, 0⟩, _, by decide!, hnew 2 3 (by decide) (by decide) (by decide) (by decide),
          by decide!, by decide!, by decide!⟩

theorem scenario_5x5_witness :
    (1 : Int) ≤ 1 ∧ (1 : Int) ≠ 5 ∧
      ∃ cur nxt, updatearr scenarioParams64 5 5 1 scenario5 scenario5 = some (cur, nxt) ∧
        readCell cur (2 * 5 + 1) = some ⟨belowOne, 0.1⟩ ∧
        readCell cur (0 * 5 + 2) = readCell scenario5 (0 * 5 + 2) := by
  refine ⟨by decide, by decide, ?_⟩
  obtain ⟨⟨cur, nxt, h1, h2, h3⟩, -⟩ := scenario_5x5 1 (by decide) (by decide)
  refine ⟨cur, nxt, h1, ?_, h2 2 0 (by decide) (by decide) (by decide) (by decide)
    (Or.inr (Or.inr (Or.inl rfl)))⟩
  obtain ⟨old, new, -, hnew, heq, -⟩ := h3 (1, 2) (by simp)
  rw [← heq]
  exact hnew

/-! ## C13: key presses and steps -/

section Generic

set_option linter.unusedSectionVars false

variable {α : Type} [Zero α] [One α] [Neg α] [Add α] [Sub α] [Mul α] [OfScientific α]
variable [LT α] [∀ x y : α, Decidable (x < y)]

/-- A sequence of key presses and `updatearr` calls on buffers of `W * H` cells with at
least one worker succeeds; the tunables at the end are those of the key presses alone,
in order, and the buffers still have `W * H` cells. -/
theorem run_params {W H N : Int} (hH : 0 < H) (hN : 1 ≤ N) (actions : List Action) :
    ∀ s : Sim α, (s.arr.length : Int) = W * H → (s.nextarr.length : Int) = W * H →
      ∃ s2, run W H N actions s = some s2 ∧
        s2.P = (keysOf actions).foldl (fun P k => keyPressed k P) s.P ∧
        (s2.arr.length : Int) = W * H ∧ (s2.nextarr.length : Int) = W * H := by
  induction actions with
  | nil =>
    intro s h1 h2
    exact ⟨s, rfl, rfl, h1, h2⟩
  | cons e rest ih =>
    intro s h1 h2
    cases e with
    | key k =>
      obtain ⟨s2, hs2, hP, h3, h4⟩ := ih { s with P := keyPressed k s.P } h1 h2
      refine ⟨s2, ?_, hP, h3, h4⟩
      simp only [run, List.foldlM_cons, act, bind, Option.bind] at hs2 ⊢
      exact hs2
    | update =>
      obtain ⟨cur, hcur, hlen, -, -⟩ := updatearrIn_spec s.P hH hN
        (fun i hi => by rw [mem_forRange] at hi; exact hi) h1 h2
      obtain ⟨s2, hs2, hP, h3, h4⟩ := ih { s with arr := cur, nextarr := s.arr }
        (by show (cur.length : Int) = W * H; omega) h1
      refine ⟨s2, ?_, hP, h3, h4⟩
      have hupd : updatearr s.P W H N s.arr s.nextarr = some (cur, s.arr) := hcur
      simp only [run, List.foldlM_cons, act, hupd, bind, Option.bind, pure] at hs2 ⊢
      exact hs2

end Generic

/-- C13 (amended). For every arithmetic on the tunables, every state with buffers of
`W * H` cells and at least one worker, every sequence of key presses and `updatearr`
calls succeeds; when its key presses are exactly two `Up` keys, however many
`updatearr` calls lie before, between or after them, `KILL_RATE` ends as
`(k + 0.001) + 0.001` and `FEED_RATE`, `DT` are unchanged; with no key press at all
(`updatearr` calls only) no tunable changes. -/
theorem kill_rate_two_increments {α : Type} [Zero α] [One α] [Neg α] [Add α] [Sub α] [Mul α]
    [OfScientific α] [LT α] [∀ x y : α, Decidable (x < y)] (W H N : Int) (hH : 0 < H)
    (hN : 1 ≤ N) (s : Sim α) (hlen : (s.arr.length : Int) = W * H)
    (hlen2 : (s.nextarr.length : Int) = W * H) (actions : List Action) :
    ∃ s2, run W H N actions s = some s2 ∧
      (keysOf actions = [Scancode.Up, Scancode.Up] →
        s2.P.KILL_RATE = s.P.KILL_RATE + 0.001 + 0.001 ∧ s2.P.FEED_RATE = s.P.FEED_RATE ∧
        s2.P.DT = s.P.DT) ∧
      (keysOf actions = [] → s2.P = s.P) := by
  obtain ⟨s2, hs2, hP, -, -⟩ := run_params hH hN actions s hlen hlen2
  refine ⟨s2, hs2, ?_, ?_⟩
  · intro hk
    rw [hk] at hP
    rw [hP]
    exact ⟨rfl, rfl, rfl⟩
  · intro hk
    rw [hk] at hP
    exact hP

/-- Witness of C13 (amended) on the 3x3 buffer `grid3` with one worker: two `Up` keys
with three `updatearr` calls around them; in the exact arithmetic of this instance the
result is also `0.06 + 0.002`. -/
theorem kill_rate_two_increments_witness :
    ∃ s2, run 3 3 1 [Action.key Scancode.Up, Action.update, Action.update,
        Action.key Scancode.Up, Action.update] sim3 = some s2 ∧
      s2.P.KILL_RATE = 0.06 + 0.001 + 0.001 ∧ s2.P.KILL_RATE = 0.06 + 0.002 ∧
      s2.P.FEED_RATE = 0.05 ∧ s2.P.DT = 1 := by
  obtain ⟨s2, h, hk, -⟩ := kill_rate_two_increments 3 3 1 (by decide) (by decide) sim3
    (by decide) (by decide) [Action.key Scancode.Up, Action.update, Action.update,
      Action.key Scancode.Up, Action.update]
  have h2 := hk rfl
  refine ⟨s2, h, h2.1, ?_, h2.2.1, h2.2.2⟩
  rw [h2.1]
  show (0.06 : ℚ) + 0.001 + 0.001 = 0.06 + 0.002
  norm_num

/-- C13 (counterexample). In binary64, from `KILL_RATE = 1`, two `Up` keys with one
`updatearr` between them leave `KILL_RATE = (1 + 0.001) + 0.001`, which is one unit in
the last place (`2^(-52)`) below `1 + 0.002`. -/
theorem kill_rate_counterexample :
    simKillOne.P.KILL_RATE = 1 ∧
    (run 3 3 1 [Action.key Scancode.Up, Action.update, Action.key Scancode.Up]
        simKillOne).map (fun s => s.P.KILL_RATE) = some (1 + 0.001 + 0.001) ∧
    (1 : F64) + 0.001 + 0.001 ≠ 1 + 0.002 ∧
    ((1 : F64) + 0.001 + 0.001).k - ((1 : F64) + 0.002).k = -((2 ^ 1022 : Nat) : Int) := by
  decide!

/-! ## C14: unchecked addressing and the bands -/

namespace CppParallel

theorem laplaceA_eq_nonparallel {α : Type} [Zero α] [One α] [Neg α] [Add α] [Mul α]
    [OfScientific α] (W x y : Int) (arr : List (Cell α)) :
    laplaceA W x y arr = Nonparallel.laplaceA W x y arr := rfl

theorem laplaceB_eq_nonparallel {α : Type} [Zero α] [One α] [Neg α] [Add α] [Mul α]
    [OfScientific α] (W x y : Int) (arr : List (Cell α)) :
    laplaceB W x y arr = Nonparallel.laplaceB W x y arr := rfl

section Generic

set_option linter.unusedSectionVars false

variable {α : Type} [Zero α] [One α] [Neg α] [Add α] [Sub α] [Mul α] [OfScientific α]
variable [LT α] [∀ x y : α, Decidable (x < y)]

/-- At an interior cell the loop body of `src/CPP/parallel.cpp` succeeds and stores
one cell at the index of `(x, y)`. -/
theorem updateCell_interior (P : Params α) {W H : Int} {arr nextarr : List (Cell α)}
    (hlen : (arr.length : Int) = W * H) (hlen2 : (nextarr.length : Int) = W * H) {x y : Int}
    (hx0 : 1 ≤ x) (hx1 : x ≤ W - 2) (hy0 : 1 ≤ y) (hy1 : y ≤ H - 2) :
    ∃ c, updateCell P W arr nextarr x y = some (nextarr.set (y * W + x).toNat c) := by
  have hb := Nonparallel.unchecked_idx_bounds (by omega : 0 ≤ x) (by omega : x < W)
    (by omega : 0 ≤ y) (by omega : y < H)
  simp only [Nonparallel.get_idx_from_xy] at hb
  have h0 := hb.1
  have h1 : y * W + x < nextarr.length := by omega
  have hr := Nonparallel.readCell_unchecked_idx hlen (by omega : 0 ≤ x) (by omega : x < W)
    (by omega : 0 ≤ y) (by omega : y < H)
  simp only [Nonparallel.get_idx_from_xy] at hr
  simp only [updateCell, get_idx_from_xy, hr, laplaceA_eq_nonparallel, laplaceB_eq_nonparallel,
    Nonparallel.laplaceA_unchecked_eq hlen hx0 hx1 hy0 hy1,
    Nonparallel.laplaceB_unchecked_eq hlen hx0 hx1 hy0 hy1, bind, Option.bind,
    pure, writeA_eq h0 h1, writeB_set_self h0 h1, writeA_set_self h0 h1,
    readCell_set_self h0 h1]
  exact ⟨_, rfl⟩

/-- In the last row of the grid the stencil of `src/CPP/parallel.cpp` reads row `H`,
outside the buffer. -/
theorem laplaceA_last_row {W H : Int} {arr : List (Cell α)}
    (hlen : (arr.length : Int) = W * H) (hW : 3 ≤ W) (hH : 1 ≤ H) :
    laplaceA W 1 (H - 1) arr = none := by
  have r : ∀ u : Int, 0 ≤ u → u < W →
      readCell arr (get_idx_from_xy W u (H - 1))
        = some (cellAt arr (get_idx_from_xy W u (H - 1))) :=
    fun u h1 h2 => Nonparallel.readCell_unchecked_idx hlen h1 h2 (by omega) (by omega)
  have hout : readCell arr (get_idx_from_xy W 1 (H - 1 + 1)) = none := by
    apply readCell_eq_none
    right
    simp only [get_idx_from_xy]
    have : (H - 1 + 1) * W = W * H := by ring
    omega
  simp only [laplaceA, bind, Option.bind, r 1 (by omega) (by omega),
    r (1 - 1) (by omega) (by omega), r (1 + 1) (by omega) (by omega), hout]

theorem updateCell_last_row (P : Params α) {W H : Int} {arr : List (Cell α)}
    (hlen : (arr.length : Int) = W * H) (hW : 3 ≤ W) (hH : 1 ≤ H) (nextarr : List (Cell α)) :
    updateCell P W arr nextarr 1 (H - 1) = none := by
  have hr := Nonparallel.readCell_unchecked_idx hlen (by omega : (0 : Int) ≤ 1)
    (by omega : 1 < W) (by omega : 0 ≤ H - 1) (by omega : H - 1 < H)
  simp only [updateCell, get_idx_from_xy, Nonparallel.get_idx_from_xy] at hr ⊢
  simp only [hr, laplaceA_last_row hlen hW hH, bind, Option.bind]

end Generic

end CppParallel

/-- With as many workers as rows, the band of worker `H - 2` is the last row. -/
theorem band_at_height {H : Int} (hH : 2 ≤ H) : band H H (H - 2) = (H - 1, H) := by
  have hdiv : H / H = 1 := Int.ediv_self (by omega)
  have h1 := band_fst (by omega : 0 ≤ H) (by omega : 1 ≤ H) (H - 2)
  have h2 := band_snd (by omega : 0 ≤ H) (by omega : 1 ≤ H) (by omega : H - 2 ≠ H - 1)
  rw [hdiv] at h1 h2
  exact Prod.ext (by rw [h1]; ring) (by rw [h2]; ring)

/-- C14 (behaviour of the code). `updatearr` of `src/CPP/parallel.cpp` on buffers of
`W * H` cells, `W ≥ 3`, `H ≥ 2`, with `N ≥ 1` workers: when `N ≠ H` the step succeeds
(every read is inside the buffer); when `N = H` worker `H - 2` is handed the band
`[H - 1, H)`, the stencil is evaluated in the border row `H - 1`, where it reads row
`H`, outside the buffer, and the step has no result. -/
theorem unchecked_addressing {α : Type} [Zero α] [One α] [Neg α] [Add α] [Sub α] [Mul α]
    [OfScientific α] [LT α] [∀ x y : α, Decidable (x < y)] (P : Params α) (W H N : Int)
    (hW : 3 ≤ W) (hH : 2 ≤ H) (hN : 1 ≤ N) (arr nextarr : List (Cell α))
    (hlen : (arr.length : Int) = W * H) (hlen2 : (nextarr.length : Int) = W * H) :
    (N ≠ H → ∃ cur, CppParallel.updatearr P W H N arr nextarr = some (cur, arr)) ∧
    (N = H → band H N (H - 2) = (H - 1, H) ∧ CppParallel.laplaceA W 1 (H - 1) arr = none ∧
      CppParallel.updatearr P W H N arr nextarr = none) := by
  constructor
  · intro hne
    obtain ⟨cur, hcur, -⟩ := foldlM_inv (fun nx : List (Cell α) => nx.length = arr.length)
      (fun nx i => CppParallel.updatearr_chunk P W arr nx (band H N i).1 (band H N i).2)
      (forRange 0 N)
      (fun i hi nx hnx => by
        rw [mem_forRange] at hi
        refine foldlM_inv (fun nx : List (Cell α) => nx.length = arr.length) _ _ ?_ nx hnx
        intro y hy nx2 hnx2
        rw [mem_forRange] at hy
        have hrow := band_interior (by omega : 0 < H) hN (Or.inl hne) hi.1 hi.2 hy.1 hy.2
        refine foldlM_inv (fun nx : List (Cell α) => nx.length = arr.length) _ _ ?_ nx2 hnx2
        intro x hx nx3 hnx3
        rw [mem_forRange] at hx
        obtain ⟨c, hc⟩ := CppParallel.updateCell_interior P hlen
          (by omega : (nx3.length : Int) = W * H) hx.1 (by omega : x ≤ W - 2) hrow.1 hrow.2
        exact ⟨_, hc, by
          show (nx3.set (y * W + x).toNat c).length = arr.length
          rw [List.length_set]; exact hnx3⟩)
      nextarr (by omega)
    refine ⟨cur, ?_⟩
    simp only [CppParallel.updatearr, if_neg (by omega : ¬ N = 0), hcur, bind, Option.bind,
      pure]
  · intro hNH
    subst hNH
    refine ⟨band_at_height hH, CppParallel.laplaceA_last_row hlen hW (by omega), ?_⟩
    have hfold := foldlM_none_of_mem
      (fun nx i => CppParallel.updatearr_chunk P W arr nx (band N N i).1 (band N N i).2)
      (forRange 0 N) (N - 2) (mem_forRange.2 ⟨by omega, by omega⟩)
      (fun nx => by
        show CppParallel.updatearr_chunk P W arr nx (band N N (N - 2)).1
          (band N N (N - 2)).2 = none
        rw [band_at_height hH]
        exact foldlM_none_of_mem _ (forRange (N - 1) N) (N - 1)
          (mem_forRange.2 ⟨by omega, by omega⟩)
          (fun nx2 => foldlM_none_of_mem _ (forRange 1 (W - 1)) 1
            (mem_forRange.2 ⟨by omega, by omega⟩)
            (fun nx3 => CppParallel.updateCell_last_row P hlen hW (by omega) nx3) nx2) nx)
      nextarr
    simp only [CppParallel.updatearr, if_neg (by omega : ¬ N = 0), hfold, bind, Option.bind]

/-- Witness of C14 with the constants of `src/CPP/parallel.cpp` (`WIDTH = HEIGHT = 800`):
with 8 workers the step succeeds, with 800 workers it reads out of bounds. -/
theorem unchecked_addressing_witness :
    (∃ cur, CppParallel.updatearr scenarioParams 800 800 8 grid800 grid800
      = some (cur, grid800)) ∧
    band 800 800 (800 - 2) = (800 - 1, 800) ∧
    CppParallel.laplaceA 800 1 (800 - 1) grid800 = none ∧
    CppParallel.updatearr scenarioParams 800 800 800 grid800 grid800 = none :=
  ⟨(unchecked_addressing scenarioParams 800 800 8 (by decide) (by decide) (by decide)
      grid800 grid800 (by rw [grid800, List.length_replicate]; decide)
      (by rw [grid800, List.length_replicate]; decide)).1 (by decide),
    (unchecked_addressing scenarioParams 800 800 800 (by decide) (by decide) (by decide)
      grid800 grid800 (by rw [grid800, List.length_replicate]; decide)
      (by rw [grid800, List.length_replicate]; decide)).2 rfl⟩

/-! ## C15: the initial buffer -/

theorem Fills.of_foldlM {β κ : Type} {n : Nat} {Q : Nat → β → Prop} (Wr : κ → Nat → Prop)
    (f : List β × Nat → κ → Option (List β × Nat)) (l : List κ)
    (hf : ∀ k ∈ l, ∀ st : List β × Nat, st.1.length = n → Fills n Q (Wr k) st (f st k)) :
    ∀ st : List β × Nat, st.1.length = n →
      Fills n Q (fun j => ∃ k ∈ l, Wr k j) st (l.foldlM f st) := by
  induction l with
  | nil =>
    intro st hn
    exact ⟨st.1, st.2, rfl, hn, by simp, by simp⟩
  | cons k l ih =>
    intro st hn
    obtain ⟨mid, g, hmid, hlen, hw, hk⟩ := hf k (List.mem_cons_self k l) st hn
    obtain ⟨out, g2, hout, hlen2, hw2, hk2⟩ :=
      ih (fun k2 h2 => hf k2 (List.mem_cons_of_mem k h2)) (mid, g) hlen
    refine ⟨out, g2, ?_, hlen2, ?_, ?_⟩
    · simp [List.foldlM_cons, hmid, hout]
    · intro j hj
      by_cases hl : ∃ k2 ∈ l, Wr k2 j
      · exact hw2 j hl
      · rw [hk2 j hl]
        obtain ⟨k2, hk2mem, hk2w⟩ := hj
        rcases List.mem_cons.mp hk2mem with rfl | h
        · exact hw j hk2w
        · exact absurd ⟨k2, h, hk2w⟩ hl
    · intro j hj
      have h1 : ¬ ∃ k2 ∈ l, Wr k2 j := fun ⟨k2, h2, h3⟩ => hj ⟨k2, List.mem_cons_of_mem k h2, h3⟩
      have h2 : ¬ Wr k j := fun h => hj ⟨k, List.mem_cons_self k l, h⟩
      rw [hk2 j h1, hk j h2]

theorem Fills.weaken {β : Type} {n : Nat} {Q : Nat → β → Prop} {Wr Wr2 : Nat → Prop}
    {st : List β × Nat} {r : Option (List β × Nat)} (h : Fills n Q Wr st r)
    (hiff : ∀ j, Wr j ↔ Wr2 j) : Fills n Q Wr2 st r := by
  obtain ⟨out, g, h1, h2, h3, h4⟩ := h
  exact ⟨out, g, h1, h2, fun j hj => h3 j ((hiff j).2 hj),
    fun j hj => h4 j (fun h => hj ((hiff j).1 h))⟩

/-- The loops of `initializearr` succeed on a buffer of `W * H` cells and leave in
every cell `a = 1` and `b = 1` inside the seed window, one of the draws outside. -/
theorem initializearr_fills {α : Type} [Zero α] [One α] {W H : Int} (hW : 0 ≤ W) (hH : 0 ≤ H)
    (dist : Nat → α) :
    ∃ arr, initializearr W H dist = some arr ∧ (arr.length : Int) = W * H ∧
      ∀ x y : Int, 0 ≤ x → x < W → 0 ≤ y → y < H →
        ∃ c, readCell arr (y * W + x) = some c ∧ c.a = 1 ∧
          (InSeed W H x y → c.b = 1) ∧ (¬ InSeed W H x y → ∃ n, c.b = dist n) := by
  have hWH : 0 ≤ W * H := mul_nonneg hW hH
  have hn : (((W * H).toNat : Nat) : Int) = W * H := Int.toNat_of_nonneg hWH
  have hcell : ∀ x y : Int, 0 ≤ x → x < W → 0 ≤ y → y < H →
      ∀ st : List (Cell α) × Nat, st.1.length = (W * H).toNat →
      Fills (W * H).toNat
        (fun j c => c.a = 1 ∧ (InSeed W H (colOf W j) (rowOf W j) → c.b = 1) ∧
          (¬ InSeed W H (colOf W j) (rowOf W j) → ∃ n, c.b = dist n))
        (fun j => rowOf W j = y ∧ colOf W j = x) st
        (do
          let idx := y * W + x
          let arr ← writeA st.1 idx 1
          let arr ← writeB arr idx 0
          if x > Int.tdiv W 2 - 20 ∧ x < Int.tdiv W 2 + 20 ∧ y > Int.tdiv H 2 - 20 ∧
              y < Int.tdiv H 2 + 20 then do
            let arr ← writeB arr idx 1
            return (arr, st.2)
          else do
            let arr ← writeB arr idx (dist st.2)
            return (arr, st.2 + 1)) := by
    intro x y hx0 hx1 hy0 hy1 st hst
    have hb := Nonparallel.unchecked_idx_bounds hx0 hx1 hy0 hy1
    simp only [Nonparallel.get_idx_from_xy] at hb
    have h1 : y * W + x < st.1.length := by omega
    have hdW : Int.tdiv W 2 = W / 2 := Int.tdiv_eq_ediv hW (by decide)
    have hdH : Int.tdiv H 2 = H / 2 := Int.tdiv_eq_ediv hH (by decide)
    have hlast : ∀ (c : Cell α) (g : Nat),
        (c.a = 1 ∧ (InSeed W H x y → c.b = 1) ∧ (¬ InSeed W H x y → ∃ n, c.b = dist n)) →
        Fills (W * H).toNat
          (fun j c => c.a = 1 ∧ (InSeed W H (colOf W j) (rowOf W j) → c.b = 1) ∧
            (¬ InSeed W H (colOf W j) (rowOf W j) → ∃ n, c.b = dist n))
          (fun j => rowOf W j = y ∧ colOf W j = x) st
          (some (st.1.set (y * W + x).toNat c, g)) := by
      intro c g hc
      refine ⟨_, g, rfl, by rw [List.length_set]; exact hst, ?_, ?_⟩
      · intro j hj
        have hj2 := (rowOf_colOf_iff hx0 hx1 j).1 hj
        have hjeq : (y * W + x).toNat = j := by omega
        refine ⟨c, by rw [hjeq, List.getElem?_set_self (by omega)], ?_⟩
        simp only [hj.1, hj.2]
        exact hc
      · intro j hj
        have hne : (y * W + x).toNat ≠ j := by
          intro h
          apply hj
          apply (rowOf_colOf_iff hx0 hx1 j).2
          omega
        exact List.getElem?_set_ne hne
    by_cases hwin : InSeed W H x y
    · have hcond : x > Int.tdiv W 2 - 20 ∧ x < Int.tdiv W 2 + 20 ∧ y > Int.tdiv H 2 - 20 ∧
          y < Int.tdiv H 2 + 20 := by
        rw [hdW, hdH]; exact hwin
      simp only [bind, Option.bind, pure, writeA_eq hb.1 h1, writeB_set_self hb.1 h1,
        if_pos hcond]
      exact hlast _ _ ⟨rfl, fun _ => rfl, fun h => absurd hwin h⟩
    · have hcond : ¬ (x > Int.tdiv W 2 - 20 ∧ x < Int.tdiv W 2 + 20 ∧
          y > Int.tdiv H 2 - 20 ∧ y < Int.tdiv H 2 + 20) := by
        rw [hdW, hdH]; exact hwin
      simp only [bind, Option.bind, pure, writeA_eq hb.1 h1, writeB_set_self hb.1 h1,
        if_neg hcond]
      exact hlast _ _ ⟨rfl, fun h => absurd h hwin, fun _ => ⟨st.2, rfl⟩⟩
  obtain ⟨out, g, hout, hlen, hw, -⟩ := Fills.of_foldlM
    (fun (y : Int) (j : Nat) => ∃ x ∈ forRange 0 W, rowOf W j = y ∧ colOf W j = x)
    _ (forRange 0 H)
    (fun y hy st hst => by
      rw [mem_forRange] at hy
      exact Fills.of_foldlM (fun (x : Int) (j : Nat) => rowOf W j = y ∧ colOf W j = x) _
        (forRange 0 W)
        (fun x hx st2 hst2 => by
          rw [mem_forRange] at hx
          exact hcell x y hx.1 hx.2 hy.1 hy.2 st2 hst2)
        st hst)
    ((List.replicate (W * H).toNat (⟨0, 0⟩ : Cell α)), 0) (List.length_replicate _ _)
  refine ⟨out, ?_, by omega, ?_⟩
  · simp only [initializearr, bind, Option.bind, pure] at hout ⊢
    rw [hout]
  · intro x y hx0 hx1 hy0 hy1
    have hb := Nonparallel.unchecked_idx_bounds hx0 hx1 hy0 hy1
    simp only [Nonparallel.get_idx_from_xy] at hb
    have hj : rowOf W (y * W + x).toNat = y ∧ colOf W (y * W + x).toNat = x :=
      (rowOf_colOf_iff hx0 hx1 _).2 (by omega)
    obtain ⟨c, hc, hq⟩ := hw (y * W + x).toNat
      ⟨y, mem_forRange.2 ⟨hy0, hy1⟩, x, mem_forRange.2 ⟨hx0, hx1⟩, hj⟩
    simp only [hj.1, hj.2] at hq
    exact ⟨c, by rw [readCell_eq_getElem? hb.1]; exact hc, hq⟩

/-- C15. For every sequence `dist` of draws from `[0, 1]` and positive `W`, `H`,
`initializearr` succeeds and returns a buffer of exactly `W * H` cells in which every
cell has `a = 1`, every cell with `W/2 - 20 < x < W/2 + 20` and `H/2 - 20 < y < H/2 + 20`
has `b = 1` and every other cell has `b` equal to one of the draws, so `0 ≤ b ≤ 1`
everywhere. -/
theorem initialization {α : Type} [Zero α] [One α] [Preorder α] (h01 : (0 : α) ≤ 1)
    (W H : Int) (hW : 0 < W) (hH : 0 < H) (dist : Nat → α)
    (hdist : ∀ n, 0 ≤ dist n ∧ dist n ≤ 1) :
    ∃ arr, initializearr W H dist = some arr ∧ (arr.length : Int) = W * H ∧
      ∀ x y : Int, 0 ≤ x → x < W → 0 ≤ y → y < H →
        ∃ c, readCell arr (y * W + x) = some c ∧ c.a = 1 ∧
          ((W / 2 - 20 < x ∧ x < W / 2 + 20 ∧ H / 2 - 20 < y ∧ y < H / 2 + 20) → c.b = 1) ∧
          (¬ (W / 2 - 20 < x ∧ x < W / 2 + 20 ∧ H / 2 - 20 < y ∧ y < H / 2 + 20) →
            ∃ n, c.b = dist n) ∧
          0 ≤ c.b ∧ c.b ≤ 1 := by
  obtain ⟨arr, h1, h2, h3⟩ := initializearr_fills hW.le hH.le dist
  refine ⟨arr, h1, h2, ?_⟩
  intro x y hx0 hx1 hy0 hy1
  obtain ⟨c, hc, ha, hin, hout⟩ := h3 x y hx0 hx1 hy0 hy1
  simp only [InSeed] at hin hout
  refine ⟨c, hc, ha, hin, hout, ?_⟩
  by_cases hwin : W / 2 - 20 < x ∧ x < W / 2 + 20 ∧ H / 2 - 20 < y ∧ y < H / 2 + 20
  · rw [hin hwin]
    exact ⟨h01, le_refl 1⟩
  · obtain ⟨n, hn⟩ := hout hwin
    rw [hn]
    exact hdist n

/-- Witness of C15 with `WIDTH = HEIGHT = 800` and the draws `1, 1/2, 1/3, ...`:
the cell `(400, 400)` of the seed window and the corner cell `(0, 0)`. -/
theorem initialization_witness :
    ∃ arr c1 c2, initializearr 800 800 harmonicDraws = some arr ∧
      (arr.length : Int) = 800 * 800 ∧
      readCell arr (400 * 800 + 400) = some c1 ∧ c1.a = 1 ∧ c1.b = 1 ∧
      readCell arr (0 * 800 + 0) = some c2 ∧ c2.a = 1 ∧ (∃ n, c2.b = harmonicDraws n) ∧
      0 ≤ c2.b ∧ c2.b ≤ 1 := by
  have hd : ∀ n, 0 ≤ harmonicDraws n ∧ harmonicDraws n ≤ 1 := by
    intro n
    have hpos : (0 : ℚ) < (n : ℚ) + 1 := by positivity
    refine ⟨by unfold harmonicDraws; positivity, ?_⟩
    unfold harmonicDraws
    rw [div_le_one hpos]
    have : (0 : ℚ) ≤ (n : ℚ) := Nat.cast_nonneg n
    linarith
  obtain ⟨arr, h1, h2, h3⟩ := initialization zero_le_one 800 800 (by decide) (by decide)
    harmonicDraws hd
  obtain ⟨c1, hc1, ha1, hin1, -, -⟩ := h3 400 400 (by decide) (by decide) (by decide)
    (by decide)
  obtain ⟨c2, hc2, ha2, -, hout2, hb2⟩ := h3 0 0 (by decide) (by decide) (by decide)
    (by decide)
  exact ⟨arr, c1, c2, h1, h2, hc1, ha1, hin1 (by decide), hc2, ha2, hout2 (by decide), hb2⟩

/-! ## C16: what the brush stores and what it leaves -/

/-- C16. For every buffer of `W * H` cells and every brush centre `(x, y)` inside the
grid, with `s = stroke / 2 ≥ 1`, the brush succeeds and afterwards every in-grid cell
`(j, i)` with `x - s ≤ j < x + s` and `y - s ≤ i < y + s` holds `a = 0`, `b = 1`, and
every other cell of the buffer is as before. -/
theorem brush_postcondition_frame {α : Type} [Zero α] [One α] (W H stroke : Int)
    (arr : List (Cell α)) (hlen : (arr.length : Int) = W * H) (x y : Int) (hx0 : 0 ≤ x)
    (hx1 : x < W) (hy0 : 0 ≤ y) (hy1 : y < H) (hs : 1 ≤ Int.tdiv stroke 2) :
    ∃ out, brush W H stroke arr x y = some out ∧ out.length = arr.length ∧
      ∀ j i : Int, 0 ≤ j → j < W → 0 ≤ i → i < H →
        ((x - Int.tdiv stroke 2 ≤ j ∧ j < x + Int.tdiv stroke 2 ∧
            y - Int.tdiv stroke 2 ≤ i ∧ i < y + Int.tdiv stroke 2) →
          readCell out (i * W + j) = some ⟨0, 1⟩) ∧
        (¬ (x - Int.tdiv stroke 2 ≤ j ∧ j < x + Int.tdiv stroke 2 ∧
            y - Int.tdiv stroke 2 ≤ i ∧ i < y + Int.tdiv stroke 2) →
          readCell out (i * W + j) = readCell arr (i * W + j)) := by
  obtain ⟨out, ho, hlo, hin, hout, -⟩ := brush_spec stroke arr hlen hx0 hx1 hy0 hy1
  refine ⟨out, ho, hlo, ?_⟩
  intro j i hj0 hj1 hi0 hi1
  have hb := Nonparallel.unchecked_idx_bounds hj0 hj1 hi0 hi1
  simp only [Nonparallel.get_idx_from_xy] at hb
  have hrc : rowOf W (i * W + j).toNat = i ∧ colOf W (i * W + j).toNat = j :=
    (rowOf_colOf_iff hj0 hj1 _).2 (by omega)
  have hbc := Nonparallel.unchecked_idx_bounds hx0 hx1 hy0 hy1
  simp only [Nonparallel.get_idx_from_xy] at hbc
  have hcen : rowOf W (y * W + x).toNat = y ∧ colOf W (y * W + x).toNat = x :=
    (rowOf_colOf_iff hx0 hx1 _).2 (by omega)
  rw [readCell_eq_getElem? hb.1, readCell_eq_getElem? hb.1]
  constructor
  · intro hwin
    apply hin
    simp only [InBrush, hrc.1, hrc.2]
    omega
  · intro hwin
    apply hout
    · simp only [InBrush, hrc.1, hrc.2]
      omega
    · intro heq
      apply hwin
      have h1 : i = y := by rw [← hrc.1, heq, hcen.1]
      have h2 : j = x := by rw [← hrc.2, heq, hcen.2]
      omega

/-- Witness of C16 with the constants of `src/parallel.cpp`, centre `(400, 400)`: the
cell `(396, 403)` of the window is overwritten, the cell `(404, 400)` is kept. -/
theorem brush_postcondition_frame_witness :
    ∃ out, brush 800 800 8 grid800 400 400 = some out ∧
      readCell out (403 * 800 + 396) = some ⟨0, 1⟩ ∧
      readCell out (400 * 800 + 404) = readCell grid800 (400 * 800 + 404) := by
  obtain ⟨out, h, -, hall⟩ := brush_postcondition_frame 800 800 8 grid800
    (by rw [grid800, List.length_replicate]; decide) 400 400 (by decide) (by decide)
    (by decide) (by decide) (by decide)
  exact ⟨out, h,
    (hall 396 403 (by decide) (by decide) (by decide) (by decide)).1 (by decide),
    (hall 404 400 (by decide) (by decide) (by decide) (by decide)).2 (by decide)⟩

/-! ## C17: the outer ring of the two buffers -/

namespace Old

theorem shape_row {α : Type} {W H : Int} {g : List (List (Cell α))} (hg : Shape W H g)
    {i : Int} (hi0 : 0 ≤ i) (hi1 : i < H) :
    ∃ row, g[i.toNat]? = some row ∧ (row.length : Int) = W := by
  have h : i.toNat < g.length := by have := hg.1; omega
  exact ⟨g[i.toNat], List.getElem?_eq_getElem h, hg.2 _ (List.getElem_mem h)⟩

theorem readGrid_gridAt {α : Type} [Zero α] {W H : Int} {g : List (List (Cell α))}
    (hg : Shape W H g) {i j : Int} (hi0 : 0 ≤ i) (hi1 : i < H) (hj0 : 0 ≤ j) (hj1 : j < W) :
    readGrid g i j = some (gridAt g i j) := by
  obtain ⟨row, hrow, hlen⟩ := shape_row hg hi0 hi1
  obtain ⟨c, hc, -⟩ := readCell_of_lt hj0 (by omega : j < row.length)
  simp only [gridAt, readGrid, if_pos hi0, hrow, hc, Option.getD_some]

theorem shape_setGrid {α : Type} {W H : Int} {g : List (List (Cell α))} (hg : Shape W H g)
    {i : Int} (hi0 : 0 ≤ i) (hi1 : i < H) (j : Int) (c : Cell α) :
    Shape W H (setGrid g i j c) := by
  obtain ⟨r, hr, hlen⟩ := shape_row hg hi0 hi1
  refine ⟨by simp only [setGrid, List.length_set]; exact hg.1, ?_⟩
  intro row hrow
  simp only [setGrid, hr, Option.getD_some] at hrow
  rcases List.mem_or_eq_of_mem_set hrow with h | h
  · exact hg.2 row h
  · rw [h, List.length_set]
    exact hlen

theorem readGrid_setGrid_self {α : Type} {W H : Int} {g : List (List (Cell α))}
    (hg : Shape W H g) {i j : Int} (hi0 : 0 ≤ i) (hi1 : i < H) (hj0 : 0 ≤ j) (hj1 : j < W)
    (c : Cell α) : readGrid (setGrid g i j c) i j = some c := by
  obtain ⟨r, hr, hlen⟩ := shape_row hg hi0 hi1
  have h : i.toNat < g.length := by have := hg.1; omega
  simp only [readGrid, if_pos hi0, setGrid, hr, Option.getD_some, List.getElem?_set_self h]
  exact readCell_set_self hj0 (by omega) c

theorem readGrid_setGrid_ne {α : Type} {W H : Int} {g : List (List (Cell α))}
    (hg : Shape W H g) {i j : Int} (hi0 : 0 ≤ i) (hi1 : i < H) (hj0 : 0 ≤ j)
    (c : Cell α) {i2 j2 : Int} (hne : i2 ≠ i ∨ j2 ≠ j) :
    readGrid (setGrid g i j c) i2 j2 = readGrid g i2 j2 := by
  obtain ⟨r, hr, hlen⟩ := shape_row hg hi0 hi1
  have h : i.toNat < g.length := by have := hg.1; omega
  unfold readGrid
  by_cases h0 : 0 ≤ i2
  · rw [if_pos h0, if_pos h0]
    by_cases hi : i2 = i
    · subst hi
      have hj : j2 ≠ j := by rcases hne with h1 | h1; exact absurd rfl h1; exact h1
      simp only [setGrid, hr, Option.getD_some, List.getElem?_set_self h]
      unfold readCell
      by_cases hj2 : 0 ≤ j2
      · rw [if_pos hj2, if_pos hj2, List.getElem?_set_ne (by omega)]
      · rw [if_neg hj2, if_neg hj2]
    · simp only [setGrid]
      rw [List.getElem?_set_ne (by omega)]
  · rw [if_neg h0, if_neg h0]

theorem setGrid_setGrid {α : Type} {W H : Int} {g : List (List (Cell α))}
    (hg : Shape W H g) {i : Int} (hi0 : 0 ≤ i) (hi1 : i < H) (j : Int) (c c2 : Cell α) :
    setGrid (setGrid g i j c) i j c2 = setGrid g i j c2 := by
  obtain ⟨r, hr, hlen⟩ := shape_row hg hi0 hi1
  have h : i.toNat < g.length := by have := hg.1; omega
  simp only [setGrid, hr, Option.getD_some, List.getElem?_set_self h, List.set_set]

theorem writeGridA_eq {α : Type} [Zero α] {W H : Int} {g : List (List (Cell α))}
    (hg : Shape W H g) {i j : Int} (hi0 : 0 ≤ i) (hi1 : i < H) (hj0 : 0 ≤ j) (hj1 : j < W)
    (v : α) : writeGridA g i j v = some (setGrid g i j ⟨v, (gridAt g i j).b⟩) := by
  obtain ⟨r, hr, hlen⟩ := shape_row hg hi0 hi1
  have hc : gridAt g i j = cellAt r j := by
    simp only [gridAt, readGrid, if_pos hi0, hr, cellAt]
  simp only [writeGridA, if_pos hi0, hr, writeA_eq hj0 (by omega : j < r.length), setGrid,
    Option.getD_some, hc]

theorem writeGridB_eq {α : Type} [Zero α] {W H : Int} {g : List (List (Cell α))}
    (hg : Shape W H g) {i j : Int} (hi0 : 0 ≤ i) (hi1 : i < H) (hj0 : 0 ≤ j) (hj1 : j < W)
    (v : α) : writeGridB g i j v = some (setGrid g i j ⟨(gridAt g i j).a, v⟩) := by
  obtain ⟨r, hr, hlen⟩ := shape_row hg hi0 hi1
  have hc : gridAt g i j = cellAt r j := by
    simp only [gridAt, readGrid, if_pos hi0, hr, cellAt]
  simp only [writeGridB, if_pos hi0, hr, writeB_eq hj0 (by omega : j < r.length), setGrid,
    Option.getD_some, hc]

theorem gridAt_setGrid_self {α : Type} [Zero α] {W H : Int} {g : List (List (Cell α))}
    (hg : Shape W H g) {i j : Int} (hi0 : 0 ≤ i) (hi1 : i < H) (hj0 : 0 ≤ j) (hj1 : j < W)
    (c : Cell α) : gridAt (setGrid g i j c) i j = c := by
  simp only [gridAt, readGrid_setGrid_self hg hi0 hi1 hj0 hj1, Option.getD_some]

theorem writeGridA_setGrid_self {α : Type} [Zero α] {W H : Int} {g : List (List (Cell α))}
    (hg : Shape W H g) {i j : Int} (hi0 : 0 ≤ i) (hi1 : i < H) (hj0 : 0 ≤ j) (hj1 : j < W)
    (c : Cell α) (v : α) :
    writeGridA (setGrid g i j c) i j v = some (setGrid g i j ⟨v, c.b⟩) := by
  rw [writeGridA_eq (shape_setGrid hg hi0 hi1 j c) hi0 hi1 hj0 hj1,
    gridAt_setGrid_self hg hi0 hi1 hj0 hj1, setGrid_setGrid hg hi0 hi1]

theorem writeGridB_setGrid_self {α : Type} [Zero α] {W H : Int} {g : List (List (Cell α))}
    (hg : Shape W H g) {i j : Int} (hi0 : 0 ≤ i) (hi1 : i < H) (hj0 : 0 ≤ j) (hj1 : j < W)
    (c : Cell α) (v : α) :
    writeGridB (setGrid g i j c) i j v = some (setGrid g i j ⟨c.a, v⟩) := by
  rw [writeGridB_eq (shape_setGrid hg hi0 hi1 j c) hi0 hi1 hj0 hj1,
    gridAt_setGrid_self hg hi0 hi1 hj0 hj1, setGrid_setGrid hg hi0 hi1]

section Generic

set_option linter.unusedSectionVars false

variable {α : Type} [Zero α] [One α] [Neg α] [Add α] [Sub α] [Mul α] [OfScientific α]

theorem laplaceA_interior {W H : Int} {grid : List (List (Cell α))} (hg : Shape W H grid)
    {x y : Int} (hx0 : 1 ≤ x) (hx1 : x ≤ W - 2) (hy0 : 1 ≤ y) (hy1 : y ≤ H - 2) :
    ∃ v, laplaceA x y grid = some v := by
  have r : ∀ i j : Int, y - 1 ≤ i → i ≤ y + 1 → x - 1 ≤ j → j ≤ x + 1 →
      readGrid grid i j = some (gridAt grid i j) :=
    fun i j h1 h2 h3 h4 => readGrid_gridAt hg (by omega) (by omega) (by omega) (by omega)
  simp only [laplaceA, bind, Option.bind, pure,
    r y x (by omega) (by omega) (by omega) (by omega),
    r (y - 1) x (by omega) (by omega) (by omega) (by omega),
    r (y + 1) x (by omega) (by omega) (by omega) (by omega),
    r y (x + 1) (by omega) (by omega) (by omega) (by omega),
    r y (x - 1) (by omega) (by omega) (by omega) (by omega),
    r (y - 1) (x - 1) (by omega) (by omega) (by omega) (by omega),
    r (y + 1) (x - 1) (by omega) (by omega) (by omega) (by omega),
    r (y + 1) (x + 1) (by omega) (by omega) (by omega) (by omega),
    r (y - 1) (x + 1) (by omega) (by omega) (by omega) (by omega)]
  exact ⟨_, rfl⟩

theorem laplaceB_interior {W H : Int} {grid : List (List (Cell α))} (hg : Shape W H grid)
    {x y : Int} (hx0 : 1 ≤ x) (hx1 : x ≤ W - 2) (hy0 : 1 ≤ y) (hy1 : y ≤ H - 2) :
    ∃ v, laplaceB x y grid = some v := by
  have r : ∀ i j : Int, y - 1 ≤ i → i ≤ y + 1 → x - 1 ≤ j → j ≤ x + 1 →
      readGrid grid i j = some (gridAt grid i j) :=
    fun i j h1 h2 h3 h4 => readGrid_gridAt hg (by omega) (by omega) (by omega) (by omega)
  simp only [laplaceB, bind, Option.bind, pure,
    r y x (by omega) (by omega) (by omega) (by omega),
    r (y - 1) x (by omega) (by omega) (by omega) (by omega),
    r (y + 1) x (by omega) (by omega) (by omega) (by omega),
    r y (x + 1) (by omega) (by omega) (by omega) (by omega),
    r y (x - 1) (by omega) (by omega) (by omega) (by omega),
    r (y - 1) (x - 1) (by omega) (by omega) (by omega) (by omega),
    r (y + 1) (x - 1) (by omega) (by omega) (by omega) (by omega),
    r (y + 1) (x + 1) (by omega) (by omega) (by omega) (by omega),
    r (y - 1) (x + 1) (by omega) (by omega) (by omega) (by omega)]
  exact ⟨_, rfl⟩

variable [LT α] [∀ x y : α, Decidable (x < y)]

/-- At an interior cell the loop body of `updateGrid` succeeds and replaces one cell of
`nextGrid`, at row `y`, column `x`. -/
theorem updateGridCell_interior (P : Params α) {W H : Int} {grid nextGrid : List (List (Cell α))}
    (hg : Shape W H grid) (hn : Shape W H nextGrid) {x y : Int} (hx0 : 1 ≤ x)
    (hx1 : x ≤ W - 2) (hy0 : 1 ≤ y) (hy1 : y ≤ H - 2) :
    ∃ c, updateCell P grid nextGrid x y = some (setGrid nextGrid y x c) := by
  obtain ⟨la, hla⟩ := laplaceA_interior hg hx0 hx1 hy0 hy1
  obtain ⟨lb, hlb⟩ := laplaceB_interior hg hx0 hx1 hy0 hy1
  have hy0' : (0 : Int) ≤ y := by omega
  have hy1' : y < H := by omega
  have hx0' : (0 : Int) ≤ x := by omega
  have hx1' : x < W := by omega
  simp only [updateCell, readGrid_gridAt hg hy0' hy1' hx0' hx1', hla, hlb, bind, Option.bind,
    pure, writeGridA_eq hn hy0' hy1' hx0' hx1', writeGridB_setGrid_self hn hy0' hy1' hx0' hx1',
    writeGridA_setGrid_self hn hy0' hy1' hx0' hx1', readGrid_setGrid_self hn hy0' hy1' hx0' hx1']
  exact ⟨_, rfl⟩

end Generic

end Old

/-- C17. For `updatearr` of `src/parallel.cpp` with `1 ≤ N < H` workers and buffers of
`W * H` cells: if `arr` and `nextarr` hold equal cells at every position of the outer
ring, the step succeeds and every cell of the outer ring of the new current buffer
equals the cell the current buffer had before and the cell of the new `nextarr`. The
copy-based `updateGrid` of `src/CPP/old/main.cpp` succeeds on every grid of `H` rows
of `W` cells and leaves every cell of the outer ring as it was. -/
theorem border_agreement {α : Type} [Zero α] [One α] [Neg α] [Add α] [Sub α] [Mul α]
    [OfScientific α] [LT α] [∀ x y : α, Decidable (x < y)] (P : Params α) (W H N : Int)
    (hH : 0 < H) (hN : 1 ≤ N) (hNH : N < H) (arr nextarr : List (Cell α))
    (hlen : (arr.length : Int) = W * H) (hlen2 : (nextarr.length : Int) = W * H)
    (hring : ∀ x y : Int, 0 ≤ x → x < W → 0 ≤ y → y < H →
      (x = 0 ∨ x = W - 1 ∨ y = 0 ∨ y = H - 1) →
      readCell arr (y * W + x) = readCell nextarr (y * W + x)) :
    (∃ cur nxt, updatearr P W H N arr nextarr = some (cur, nxt) ∧
      ∀ x y : Int, 0 ≤ x → x < W → 0 ≤ y → y < H →
        (x = 0 ∨ x = W - 1 ∨ y = 0 ∨ y = H - 1) →
        readCell cur (y * W + x) = readCell arr (y * W + x) ∧
        readCell cur (y * W + x) = readCell nxt (y * W + x)) ∧
    (∀ grid : List (List (Cell α)), Old.Shape W H grid →
      ∃ out, Old.updateGrid P W H grid = some out ∧
        ∀ x y : Int, 0 ≤ x → x < W → 0 ≤ y → y < H →
          (x = 0 ∨ x = W - 1 ∨ y = 0 ∨ y = H - 1) →
          Old.readGrid out y x = Old.readGrid grid y x) := by
  constructor
  · have horder : ∀ i, i ∈ forRange 0 N ↔ 0 ≤ i ∧ i < N := fun i => mem_forRange
    obtain ⟨cur, h1, -, -, h4⟩ := updatearrIn_spec P hH hN (fun i hi => (horder i).1 hi)
      hlen hlen2
    refine ⟨cur, arr, h1, ?_⟩
    intro x y hx0 hx1 hy0 hy1 hr
    have hb := Nonparallel.unchecked_idx_bounds hx0 hx1 hy0 hy1
    simp only [Nonparallel.get_idx_from_xy] at hb
    have hj : rowOf W (y * W + x).toNat = y ∧ colOf W (y * W + x).toNat = x :=
      (rowOf_colOf_iff hx0 hx1 _).2 (by omega)
    have hns : ¬ Stored (forRange 0 N) W H N (y * W + x).toNat := by
      intro hst
      have := (stored_iff_interior hH hN (Or.inl (by omega)) horder _).1 hst
      rw [hj.1, hj.2] at this
      omega
    have hcur : readCell cur (y * W + x) = readCell arr (y * W + x) := by
      rw [hring x y hx0 hx1 hy0 hy1 hr, readCell_eq_getElem? hb.1, readCell_eq_getElem? hb.1]
      exact h4 _ hns
    exact ⟨hcur, hcur⟩
  · intro grid hg
    obtain ⟨out, hout, -, hframe⟩ := foldlM_inv
      (fun nx : List (List (Cell α)) => Old.Shape W H nx ∧
        ∀ i j : Int, ¬ ((1 ≤ i ∧ i ≤ H - 2) ∧ 1 ≤ j ∧ j ≤ W - 2) →
          Old.readGrid nx i j = Old.readGrid grid i j)
      (fun nextGrid y => (forRange 1 (W - 1)).foldlM
        (fun nextGrid x => Old.updateCell P grid nextGrid x y) nextGrid)
      (forRange 1 (H - 1))
      (fun y hy nx hnx => by
        rw [mem_forRange] at hy
        refine foldlM_inv _ _ _ ?_ nx hnx
        intro x hx nx2 hnx2
        rw [mem_forRange] at hx
        obtain ⟨c, hc⟩ := Old.updateGridCell_interior P hg hnx2.1 hx.1 (by omega : x ≤ W - 2)
          hy.1 (by omega : y ≤ H - 2)
        refine ⟨_, hc, Old.shape_setGrid hnx2.1 (by omega) (by omega) x c, ?_⟩
        intro i j hij
        rw [Old.readGrid_setGrid_ne hnx2.1 (by omega) (by omega) (by omega) c
          (by omega : i ≠ y ∨ j ≠ x)]
        exact hnx2.2 i j hij)
      grid ⟨hg, fun _ _ _ => rfl⟩
    refine ⟨out, hout, ?_⟩
    intro x y hx0 hx1 hy0 hy1 hr
    exact hframe y x (by omega)

/-- Witness of C17 on the 3x3 buffer `grid3` with two workers, at the corner `(0, 0)`,
and on the same cells as a grid of three rows for `updateGrid`. -/
theorem border_agreement_witness :
    (∃ cur nxt, updatearr scenarioParams 3 3 2 grid3 grid3 = some (cur, nxt) ∧
      readCell cur (0 * 3 + 0) = readCell grid3 (0 * 3 + 0) ∧
      readCell cur (0 * 3 + 0) = readCell nxt (0 * 3 + 0)) ∧
    (∃ out, Old.updateGrid scenarioParams 3 3 rows3 = some out ∧
      Old.readGrid out 0 0 = Old.readGrid rows3 0 0) := by
  have h := border_agreement scenarioParams 3 3 2 (by decide) (by decide) (by decide)
    grid3 grid3 (by decide) (by decide) (fun _ _ _ _ _ _ _ => rfl)
  obtain ⟨cur, nxt, h1, h2⟩ := h.1
  obtain ⟨out, h3, h4⟩ := h.2 rows3 ⟨by decide, by decide⟩
  exact ⟨⟨cur, nxt, h1, h2 0 0 (by decide) (by decide) (by decide) (by decide)
    (Or.inl rfl)⟩, ⟨out, h3, h4 0 0 (by decide) (by decide) (by decide) (by decide)
    (Or.inl rfl)⟩⟩

/-! ## C18: clamped against unchecked stencils -/

/-- C18. For every buffer of `W * H` cells and every interior cell `(x, y)`
(`1 ≤ x ≤ W-2`, `1 ≤ y ≤ H-2`), in any arithmetic, `laplaceA` of `src/parallel.cpp`
(clamped addressing) returns a value, and `laplaceA` of `src/CPP/parallel.cpp` and of
`src/nonparallel.cpp` (unchecked `y * W + x`) return the same value; likewise
`laplaceB`. -/
theorem stencils_agree {α : Type} [Zero α] [One α] [Neg α] [Add α] [Sub α] [Mul α]
    [OfScientific α]
    (W H : Int) (arr : List (Cell α)) (hlen : (arr.length : Int) = W * H) (x y : Int)
    (hx0 : 1 ≤ x) (hx1 : x ≤ W - 2) (hy0 : 1 ≤ y) (hy1 : y ≤ H - 2) :
    (∃ v, laplaceA W H x y arr = some v ∧ CppParallel.laplaceA W x y arr = some v ∧
      Nonparallel.laplaceA W x y arr = some v) ∧
    (∃ v, laplaceB W H x y arr = some v ∧ CppParallel.laplaceB W x y arr = some v ∧
      Nonparallel.laplaceB W x y arr = some v) := by
  have r : ∀ u v : Int, x - 1 ≤ u → u ≤ x + 1 → y - 1 ≤ v → v ≤ y + 1 →
      get_idx_from_xy W H u v = Nonparallel.get_idx_from_xy W u v :=
    fun u v h1 h2 h3 h4 =>
      get_idx_from_xy_inside (by omega) (by omega) (by omega) (by omega)
  have hst : ∀ g : Cell α → α,
      stencil (fun u v => g (cellAt arr (get_idx_from_xy W H u v))) x y
        = stencil (fun u v => g (cellAt arr (Nonparallel.get_idx_from_xy W u v))) x y := by
    intro g
    simp only [stencil,
      r x y (by omega) (by omega) (by omega) (by omega),
      r (x - 1) y (by omega) (by omega) (by omega) (by omega),
      r (x + 1) y (by omega) (by omega) (by omega) (by omega),
      r x (y + 1) (by omega) (by omega) (by omega) (by omega),
      r x (y - 1) (by omega) (by omega) (by omega) (by omega),
      r (x - 1) (y - 1) (by omega) (by omega) (by omega) (by omega),
      r (x + 1) (y - 1) (by omega) (by omega) (by omega) (by omega),
      r (x + 1) (y + 1) (by omega) (by omega) (by omega) (by omega),
      r (x - 1) (y + 1) (by omega) (by omega) (by omega) (by omega)]
  constructor
  · refine ⟨_, laplaceA_eq (by omega) (by omega) hlen x y, ?_, ?_⟩
    · rw [CppParallel.laplaceA_eq_nonparallel,
        Nonparallel.laplaceA_unchecked_eq hlen hx0 hx1 hy0 hy1]
      exact congrArg some (hst (fun c => c.a)).symm
    · rw [Nonparallel.laplaceA_unchecked_eq hlen hx0 hx1 hy0 hy1]
      exact congrArg some (hst (fun c => c.a)).symm
  · refine ⟨_, laplaceB_eq (by omega) (by omega) hlen x y, ?_, ?_⟩
    · rw [CppParallel.laplaceB_eq_nonparallel,
        Nonparallel.laplaceB_unchecked_eq hlen hx0 hx1 hy0 hy1]
      exact congrArg some (hst (fun c => c.b)).symm
    · rw [Nonparallel.laplaceB_unchecked_eq hlen hx0 hx1 hy0 hy1]
      exact congrArg some (hst (fun c => c.b)).symm

/-- Witness of C18 on the 3x3 buffer `grid3`, at the interior cell `(1, 1)`. -/
theorem stencils_agree_witness :
    (∃ v, laplaceA 3 3 1 1 grid3 = some v ∧ CppParallel.laplaceA 3 1 1 grid3 = some v ∧
      Nonparallel.laplaceA 3 1 1 grid3 = some v) ∧
    (∃ v, laplaceB 3 3 1 1 grid3 = some v ∧ CppParallel.laplaceB 3 1 1 grid3 = some v ∧
      Nonparallel.laplaceB 3 1 1 grid3 = some v) :=
  stencils_agree 3 3 grid3 (by decide) 1 1 (by decide) (by decide) (by decide) (by decide)

/-! ## C19: the state without activator -/

/-- C19 (counterexample). In binary64 with the tunables as shipped (`Da = 0.2097`,
`F = 0.046`, `K = 0.0594`, `DT = 4`), on the 3x3 buffer whose cells all hold `a = 1`,
`b = 0`, `updatearr_chunk` stores `a = 1 - 2^(-53)`, `b = 0` at the interior cell
`(1, 1)`: `a` is not `1`. -/
theorem steady_state_counterexample :
    (∀ c ∈ steady3, c.a = 1 ∧ c.b = 0) ∧
    (updatearr_chunk shippedParams64 3 3 steady3 steady3 1 2).bind
        (fun out => readCell out (1 * 3 + 1)) = some ⟨belowOne, 0⟩ ∧
    belowOne < 1 ∧
    (updatearr_chunk shippedParams64 3 3 steady3 steady3 1 2).bind
        (fun out => readCell out (1 * 3 + 1)) ≠ some ⟨1, 0⟩ := by
  decide!

theorem nextCell_steady {α : Type} [LinearOrderedField α] (P : Params α) {W H : Int}
    (hW : 0 < W) (hH : 0 < H) {arr : List (Cell α)} (hlen : (arr.length : Int) = W * H)
    (hu : ∀ c ∈ arr, c.a = 1 ∧ c.b = 0) (x y : Int) : nextCell P W H arr x y = ⟨1, 0⟩ := by
  have hmem : ∀ u v : Int, cellAt arr (get_idx_from_xy W H u v) ∈ arr := fun u v =>
    cellAt_mem (get_idx_from_xy_bounds hW hH u v).1
      (by have := (get_idx_from_xy_bounds hW hH u v).2; omega)
  have ha : (fun u v => (cellAt arr (get_idx_from_xy W H u v)).a) = fun _ _ => (1 : α) := by
    funext u v
    exact (hu _ (hmem u v)).1
  have hb : (fun u v => (cellAt arr (get_idx_from_xy W H u v)).b) = fun _ _ => (0 : α) := by
    funext u v
    exact (hu _ (hmem u v)).2
  simp only [nextCell, ha, hb, stencil_const, (hu _ (hmem x y)).1, (hu _ (hmem x y)).2,
    stdClamp_eq_clamp01, clamp01]
  norm_num

/-- C19 (amended). In exact (ordered-field) arithmetic, if every cell of the current
buffer has `a = 1` and `b = 0`, then for every `FEED_RATE`, `KILL_RATE`, `DT` (and
diffusion rates) `updatearr_chunk` of `src/parallel.cpp` succeeds on every band within
the interior rows and stores `a = 1`, `b = 0` at every interior cell of the band. -/
theorem steady_state_exact {α : Type} [LinearOrderedField α] (P : Params α) (W H : Int)
    (hW : 0 < W) (hH : 0 < H) (arr nextarr : List (Cell α))
    (hlen : (arr.length : Int) = W * H) (hlen2 : (nextarr.length : Int) = W * H)
    (hu : ∀ c ∈ arr, c.a = 1 ∧ c.b = 0) (start_y end_y : Int) (hs : 1 ≤ start_y)
    (he : end_y ≤ H - 1) :
    ∃ out, updatearr_chunk P W H arr nextarr start_y end_y = some out ∧
      ∀ x y : Int, 1 ≤ x → x ≤ W - 2 → start_y ≤ y → y < end_y →
        readCell out (y * W + x) = some ⟨1, 0⟩ := by
  obtain ⟨out, h1, -, h3, -⟩ := updatearr_chunk_writes P
    (by omega : ((arr.length : Nat) : Int) = W * H) rfl (by omega : 0 ≤ start_y)
    (by omega : end_y ≤ H) nextarr (by omega : nextarr.length = arr.length)
  refine ⟨out, h1, ?_⟩
  intro x y hx0 hx1 hy0 hy1
  have hb := Nonparallel.unchecked_idx_bounds (by omega : 0 ≤ x) (by omega : x < W)
    (by omega : 0 ≤ y) (by omega : y < H)
  simp only [Nonparallel.get_idx_from_xy] at hb
  have hj : rowOf W (y * W + x).toNat = y ∧ colOf W (y * W + x).toNat = x :=
    (rowOf_colOf_iff (by omega) (by omega) _).2 (by omega)
  rw [readCell_eq_getElem? hb.1,
    h3 _ ⟨by rw [hj.1]; exact ⟨hy0, hy1⟩, by rw [hj.2]; omega⟩]
  simp only [valAt, nextCell_steady P hW hH hlen hu]

/-- Witness of C19 (amended) on the 3x3 rational buffer whose cells all hold `a = 1`,
`b = 0`, band `[1, 2)`, cell `(1, 1)`. -/
theorem steady_state_exact_witness :
    ∃ out, updatearr_chunk scenarioParams 3 3 steadyQ3 steadyQ3 1 2 = some out ∧
      readCell out (1 * 3 + 1) = some ⟨1, 0⟩ := by
  obtain ⟨out, h, hall⟩ := steady_state_exact scenarioParams 3 3 (by decide) (by decide)
    steadyQ3 steadyQ3 (by decide) (by decide)
    (fun c hc => by
      rw [steadyQ3, List.mem_replicate] at hc
      rw [hc.2]
      exact ⟨rfl, rfl⟩)
    1 2 (by decide) (by decide)
  exact ⟨out, h, hall 1 1 (by decide) (by decide) (by decide) (by decide)⟩

end ReactionDiffusion
